import Mathlib

/-!
# Verification of the Swiss-tournament pairing engine (`tournament.py`)

Shallow embedding of the pairing engine of `src/tournament.py`.  The
database (PostgreSQL tables `players` and `matches`) is modelled as an
explicit state value; every SQL statement the Python code issues is
translated to a pure query over that state.  The SQL schema file (the
views `num_wins` and `num_matches_wins`) is not part of `src/`, so those
views are modelled from the spec (§3, §6) and marked as such.

Python error behaviour is made explicit:
* `print ...; return None` failure paths of `swissPairings` become
  `Except.error` values with a constructor per message;
* uncaught exceptions (`IndexError` from `list.pop(0)` on an empty list or
  from indexing past the end, `ValueError` from `all_pairs`, the `TypeError`
  from subscripting the `None` returned by `fetchone()` on an empty result)
  also become `Except.error` values, with constructors named after the
  failure they model.
-/

deriving instance DecidableEq for Except

/-- A stable insertion of `x` into a list: before the first element `y` with
`le x y`. -/
def insertSorted (le : α → α → Bool) (x : α) : List α → List α
  | [] => [x]
  | y :: ys => if le x y then x :: y :: ys else y :: insertSorted le x ys

/-- A stable sort, used to model SQL `ORDER BY` (ties keep table order, per
spec §3: "ties broken arbitrarily but stably"). -/
def sortRows (le : α → α → Bool) : List α → List α
  | [] => []
  | x :: xs => insertSorted le x (sortRows le xs)

/-- A row of the `players` table: serial id, name, and the `had_bye` flag. -/
structure PlayerRow where
  id : Nat
  name : String
  had_bye : Bool
  deriving Repr, DecidableEq

/-- A row of the `matches` table: `(winner_pid, loser_pid)`, where a null
`loser_pid` records a bye. -/
abbrev MatchRow := Nat × Option Nat

/-- The database state: the `players` and `matches` tables.  (`matches` is a
Lean keyword, so the field is called `matchList`.) -/
structure DB where
  players : List PlayerRow
  matchList : List MatchRow
  deriving Repr, DecidableEq

/-- A standings row `(id, name, wins, matches)` as returned by
`playerStandings`. -/
structure Standing where
  id : Nat
  name : String
  wins : Nat
  matchesPlayed : Nat
  deriving Repr, DecidableEq

/-- A pairing tuple `(id1, name1, id2, name2)` as returned by
`swissPairings`. -/
structure Pairing where
  id1 : Nat
  name1 : String
  id2 : Nat
  name2 : String
  deriving Repr, DecidableEq

/-- Modelled from the spec: the `num_wins` / `num_matches_wins` SQL views are
not in `src/`; per §3 a player's `wins` is the count of matches won.  A bye
match `(p, null)` counts as a win for `p` (§1: a bye is an uncontested win). -/
def winsOf (db : DB) (pid : Nat) : Nat :=
  (db.matchList.filter (fun m => m.1 == pid)).length

/-- Modelled from the spec: number of matches a player took part in, winning
or losing (view `num_matches_wins`, §3 `matchesPlayed`). -/
def matchesPlayedOf (db : DB) (pid : Nat) : Nat :=
  (db.matchList.filter (fun m => m.1 == pid || m.2 == some pid)).length

/-- `playerStandings()` (src lines 75-97).  Modelled from the spec: the query
joins `players` with the missing `num_matches_wins` view and sorts by wins
descending (`ORDER BY num_matches_wins.wins desc`); the SQL sort is modelled
as a stable merge sort with the descending-wins comparison. -/
def playerStandings (db : DB) : List Standing :=
  sortRows (fun a b => decide (b.wins ≤ a.wins))
    (db.players.map (fun p => ⟨p.id, p.name, winsOf db p.id, matchesPlayedOf db p.id⟩))

/-- `check_for_rematch(player_id1, player_id2)` (src lines 229-247): the SQL
`EXISTS` query over `matches` with both orientations of the pair. -/
def check_for_rematch (db : DB) (id1 id2 : Nat) : Bool :=
  db.matchList.any (fun m =>
    (m.1 == id1 && m.2 == some id2) || (m.1 == id2 && m.2 == some id1))

/-- `id_to_name(player_id)` (src lines 254-268).  `fetchone()` yields the
first row with that id; `none` models the `TypeError` crash when the id is
absent. -/
def id_to_name (db : DB) (pid : Nat) : Option String :=
  (db.players.find? (fun p => p.id == pid)).map (fun p => p.name)

/-- `select_player_for_bye()` (src lines 416-434).  Modelled from the spec for
the missing `num_wins` view: the query filters `had_bye = FALSE` and orders by
wins ascending (ties in table order, modelled by a stable sort); `fetchone()`
takes the first row, `none` models the `TypeError` crash when every player has
already had a bye. -/
def select_player_for_bye (db : DB) : Option Nat :=
  ((sortRows (fun a b => decide (winsOf db a.id ≤ winsOf db b.id))
      (db.players.filter (fun p => p.had_bye == false))).head?).map (fun p => p.id)

/-- `reportMatch(winner, loser)` (src lines 100-129).  With `loser = none` the
player's `had_bye` flag is consulted: if already true the function prints an
error and returns with no insert and no update; otherwise it sets `had_bye`
and inserts the bye match.  With a concrete loser the match is inserted
unconditionally.  `none` models the `TypeError` crash when `fetchone()` finds
no row for `winner`. -/
def reportMatch (db : DB) (winner : Nat) (loser : Option Nat) : Option DB :=
  match loser with
  | none =>
    match db.players.find? (fun p => p.id == winner) with
    | none => none
    | some row =>
      if row.had_bye then some db
      else some
        { players := db.players.map (fun p =>
            if p.id == winner then { p with had_bye := true } else p),
          matchList := db.matchList ++ [(winner, none)] }
  | some l => some { db with matchList := db.matchList ++ [(winner, some l)] }

/-! ## `all_pairs` (src lines 325-386) -/

/-- Python's `range(start, start + 2*len, 2)` as used by `all_pairs`
(`range(1, list_length, 2)` has `list_length / 2` elements). -/
def oddRangeRev (n : Nat) : List Nat :=
  (List.range' 1 (n / 2) 2).reverse

/-- `itertools.product` over a list of index lists; the first factor varies
slowest, exactly as `itertools.product` iterates. -/
def listProd : List (List Nat) → List (List Nat)
  | [] => [[]]
  | l :: ls => l.flatMap (fun x => (listProd ls).map (fun c => x :: c))

/-- The body of the `for index in choice` loop of `all_pairs`:
`result.append((tmp.pop(0), tmp.pop(index)))` repeated along the choice.
`tmp.pop(0)` is the head, `tmp.pop(index)` removes the element at `index` of
the remaining tail (always in range for the generated choices; the `getD`
default is never used there). -/
def buildPairs : List Nat → List Nat → List (Nat × Nat)
  | _, [] => []
  | [], _ :: _ => []
  | a :: t, i :: is => (a, t.getD i a) :: buildPairs (t.eraseIdx i) is

/-- `all_pairs(lst)` (src lines 325-386), with the generator materialised as
the list of everything it yields, in yield order.  An odd-length list raises
`ValueError` (src line 367). -/
def all_pairs (lst : List Nat) : Except String (List (List (Nat × Nat))) :=
  if lst.length % 2 ≠ 0 then
    .error "The list must have an even number of items."
  else
    .ok ((listProd ((oddRangeRev lst.length).map List.range)).map (buildPairs lst))

/-- Fuel-indexed form of `allPairsRec` (structural recursion on the fuel so
that the kernel can evaluate it; the fuel never runs out when it starts at
the list length, see `allPairsRec_cons`). -/
def allPairsRecF : Nat → List Nat → List (List (Nat × Nat))
  | _, [] => [[]]
  | 0, _ :: _ => []
  | fuel + 1, a :: rest =>
    (List.range rest.length).flatMap (fun i =>
      (allPairsRecF fuel (rest.eraseIdx i)).map (fun m => (a, rest.getD i a) :: m))

/-- Recursive characterisation of the sequence `all_pairs` yields on an
even-length list: pair the head with each tail element in turn and recurse on
the rest.  Proven equal to `all_pairs` on even-length lists below. -/
def allPairsRec (l : List Nat) : List (List (Nat × Nat)) :=
  allPairsRecF l.length l

/-- The pairing that pairs consecutive elements (`lst[0]` with `lst[1]`, …):
the first matching `all_pairs` yields. -/
def consecPairs : List Nat → List (Nat × Nat)
  | a :: b :: t => (a, b) :: consecPairs t
  | _ => []

/-- All ids mentioned by a candidate matching, in order. -/
def pairFlatten (m : List (Nat × Nat)) : List Nat :=
  m.flatMap (fun p => [p.1, p.2])

/-- A matching abstracted to its multiset of unordered pairs (forgetting the
pair order and the orientation inside each pair). -/
def pairMS (m : List (Nat × Nat)) : Multiset (Sym2 Nat) :=
  (m.map (fun p => Sym2.mk p) : List (Sym2 Nat))

/-! ## `move_item_to_list` and the evenness pass -/

/-- The two `IndexError` sites of `move_item_to_list` (src lines 389-413):
the guarded raise when no next list exists (src line 402), and the
`pop(0)`-from-an-empty-list error (src line 406). -/
inductive MoveErr where
  | noListToMoveFrom
  | popEmpty
  deriving Repr, DecidableEq

/-- `move_item_to_list(list_of_lists, target_list_idx)` (src lines 389-413):
appends the head of list `i+1` to list `i` and deletes list `i+1` if it
became empty.  Structured recursively on the index; the guard
`target_list_idx + 2 > len(list_of_lists)` (raise at src line 402) is
exactly the case where fewer than two lists remain at the index. -/
def move_item_to_list : List (List Nat) → Nat → Except MoveErr (List (List Nat))
  | [], _ => .error .noListToMoveFrom
  | [_], 0 => .error .noListToMoveFrom
  | g :: g1 :: rest, 0 =>
    match g1 with
    | [] => .error .popEmpty
    | x :: xs =>
      .ok (if xs.isEmpty then (g ++ [x]) :: rest else (g ++ [x]) :: xs :: rest)
  | g :: gs, n + 1 => (move_item_to_list gs n).map (fun gs' => g :: gs')

/-- `IndexError` sites reachable from the evenness pass: the stale-bound
access `win_groups[i]` after a bucket deletion (`list index out of range`),
or an error raised inside `move_item_to_list`. -/
inductive EvenErr where
  | staleIndex
  | moveFailed (e : MoveErr)
  deriving Repr, DecidableEq

/-- The evenness pass of `swissPairings` (src lines 198-201):
`for i in xrange(0, len(win_groups))` with the bound evaluated once, so after
a bucket deletion the loop still runs to the stale bound and the access
`win_groups[i]` can raise `IndexError`. -/
def evenness_go : Nat → Nat → List (List Nat) → Except EvenErr (List (List Nat))
  | 0, _, groups => .ok groups
  | fuel + 1, i, groups =>
    match groups.get? i with
    | none => .error .staleIndex
    | some g =>
      if g.length % 2 ≠ 0 then
        match move_item_to_list groups i with
        | .error e => .error (.moveFailed e)
        | .ok groups' => evenness_go fuel (i + 1) groups'
      else evenness_go fuel (i + 1) groups

/-- The evenness pass (src lines 198-201): the loop runs for the originally
computed `len(win_groups)` iterations (the first argument of `evenness_go`
counts the remaining iterations, the second is the loop index `i`). -/
def evenness_pass (groups : List (List Nat)) :
    Except EvenErr (List (List Nat)) :=
  evenness_go groups.length 0 groups

/-! ## `generate_pairings` (src lines 271-322) -/

/-- Failure modes of `generate_pairings`: the `ValueError` propagating out of
`all_pairs` on an odd-length group, a `TypeError` from `id_to_name` on an
unknown id, or the `(None, idx)` return naming the failing group. -/
inductive GPErr where
  | valueError
  | nameMissing
  | groupFailed (idx : Nat)
  deriving Repr, DecidableEq

/-- The inner loop of `generate_pairings` (src lines 294-315): scan the
candidates `all_pairs` yields, skip any containing a rematch, and accept the
first rematch-free one. -/
def first_valid (db : DB) : List (List (Nat × Nat)) → Option (List (Nat × Nat))
  | [] => none
  | c :: cs =>
    if c.any (fun pr => check_for_rematch db pr.1 pr.2) then first_valid db cs
    else some c

/-- Names an accepted candidate via `id_to_name` (src lines 309-314). -/
def namedPairs (db : DB) : List (Nat × Nat) → Option (List Pairing)
  | [] => some []
  | pr :: prs =>
    match id_to_name db pr.1, id_to_name db pr.2 with
    | some n1, some n2 =>
      (namedPairs db prs).map (fun rest => ⟨pr.1, n1, pr.2, n2⟩ :: rest)
    | _, _ => none

/-- `generate_pairings(win_groups)` (src lines 271-322), group by group with
the running index `idx`; on a group with no acceptable candidate the whole
call returns `(None, idx)`, modelled as `.error (.groupFailed idx)`. -/
def generate_pairings_go (db : DB) (idx : Nat) :
    List (List Nat) → Except GPErr (List Pairing)
  | [] => .ok []
  | g :: gs =>
    match all_pairs g with
    | .error _ => .error .valueError
    | .ok cands =>
      match first_valid db cands with
      | none => .error (.groupFailed idx)
      | some c =>
        match namedPairs db c with
        | none => .error .nameMissing
        | some named =>
          match generate_pairings_go db (idx + 1) gs with
          | .error e => .error e
          | .ok rest => .ok (named ++ rest)

/-- `generate_pairings(win_groups)` (src lines 271-322). -/
def generate_pairings (db : DB) (groups : List (List Nat)) :
    Except GPErr (List Pairing) :=
  generate_pairings_go db 0 groups

/-! ## `random_pairing`, the repair loop, and `swissPairings` -/

/-- The consecutive two-at-a-time pairing of `random_pairing`'s iterator loop
(src lines 459-469).  A single trailing element is unreachable on the lists
the engine builds (after bye handling the list length is even). -/
def consecutive_pairings : List Standing → List Pairing
  | a :: b :: t => ⟨a.id, a.name, b.id, b.name⟩ :: consecutive_pairings t
  | _ => []

/-- `random_pairing(standings, pairings)` (src lines 437-471).  The in-place
`shuffle(standings)` is nondeterministic, so the shuffled list is taken as the
argument `shuf` (theorems quantify over permutations of the standings).  With
an odd count the first shuffled player gets the bye. -/
def random_pairing (shuf : List Standing) : List Pairing :=
  if shuf.length % 2 ≠ 0 then
    match shuf with
    | [] => []
    | h :: t => ⟨h.id, h.name, h.id, "Give a Bye"⟩ :: consecutive_pairings t
  else consecutive_pairings shuf

/-- The failure modes of `swissPairings` (src lines 132-226): the three
`print ...; return None` paths, and the uncaught exceptions that can
propagate out of its helpers. -/
inductive PyErr where
  /-- `"Incomplete previous round. Please report more matches."` (line 161). -/
  | incompleteRound
  /-- `"An overall winner already exists. No further round required."` (line 179). -/
  | tournamentDecided
  /-- `"Error: Can't find a set of pairings with no repeats."` (line 214). -/
  | unresolvablePairing
  /-- The `TypeError` crash in `select_player_for_bye` when every player has
  had a bye (`fetchone()` returns `None`, line 432); the failure the spec
  names `NoEligibleByeCandidate`. -/
  | noEligibleByeCandidate
  /-- The `TypeError` crash in `id_to_name` for an unknown id (line 266). -/
  | typeError
  /-- An uncaught `IndexError` (stale loop bound, guarded raise at line 402,
  or `pop` on an empty list at line 406). -/
  | indexError
  /-- The uncaught `ValueError` from `all_pairs` on an odd-length group
  (line 367). -/
  | valueError
  deriving Repr, DecidableEq

/-- Modelled from the spec: the win-group query (src lines 168-174) reads the
missing `num_wins` view for each win count `0 .. max_num_wins`; the view lists
each player with their win count, in table order. -/
def win_groups_of (db : DB) (maxW : Nat) : List (List Nat) :=
  (List.range (maxW + 1)).map (fun w =>
    ((db.players.filter (fun p => winsOf db p.id == w)).map (fun p => p.id)))

/-- The bye-removal loop of `swissPairings` (src lines 188-191): find the
first group containing the bye player, `remove` its first occurrence, stop. -/
def remove_from_groups (groups : List (List Nat)) (x : Nat) : List (List Nat) :=
  match groups with
  | [] => []
  | g :: gs => if x ∈ g then g.erase x :: gs else g :: remove_from_groups gs x

/-- Termination measure for the repair loop: the sum of `index * size` over
the bucket sequence, offset by `k`.  Every successful `move_item_to_list`
strictly decreases it. -/
def groupsMeasure (k : Nat) : List (List Nat) → Nat
  | [] => 0
  | g :: gs => k * g.length + groupsMeasure (k + 1) gs

theorem groupsMeasure_mono : ∀ (gs : List (List Nat)) {k k' : Nat}, k ≤ k' →
    groupsMeasure k gs ≤ groupsMeasure k' gs := by
  intro gs
  induction gs with
  | nil => intro k k' _; simp [groupsMeasure]
  | cons g gs ih =>
    intro k k' h
    simp only [groupsMeasure]
    exact Nat.add_le_add (Nat.mul_le_mul_right _ h) (ih (Nat.add_le_add_right h 1))

theorem move_item_measure {gs gs' : List (List Nat)} {i : Nat}
    (h : move_item_to_list gs i = .ok gs') :
    ∀ k, groupsMeasure k gs' < groupsMeasure k gs := by
  induction gs generalizing gs' i with
  | nil => simp [move_item_to_list] at h
  | cons g rest ih =>
    intro k
    match i, rest with
    | 0, [] => simp [move_item_to_list] at h
    | 0, g1 :: rest' =>
      match g1 with
      | [] => simp [move_item_to_list] at h
      | x :: xs =>
        simp only [move_item_to_list] at h
        cases h
        have hk : k * (g ++ [x]).length = k * g.length + k := by
          simp [List.length_append]; ring
        by_cases hxs : xs.isEmpty
        · have hx : xs = [] := List.isEmpty_iff.mp hxs
          subst hx
          simp only [hxs, if_true, groupsMeasure, List.length_cons,
            List.length_nil]
          have hmono := groupsMeasure_mono rest'
            (show k + 1 ≤ k + 1 + 1 by omega)
          have hk2 : (k + 1) * (0 + 1) = k + 1 := by ring
          omega
        · simp only [hxs, if_false, groupsMeasure, List.length_cons]
          have hk2 : (k + 1) * (xs.length + 1) = (k + 1) * xs.length + (k + 1) := by
            ring
          omega
    | n + 1, rest =>
      simp only [move_item_to_list, Except.map] at h
      cases hrec : move_item_to_list rest n with
      | error e => rw [hrec] at h; simp at h
      | ok rs =>
        rw [hrec] at h
        simp only at h
        cases h
        simp only [groupsMeasure]
        have := ih hrec (k + 1)
        omega

/-- Fuel-indexed form of the repair loop, structurally recursive so the
kernel can evaluate it.  Each loop iteration that retries performs two
successful moves, and each successful move strictly decreases
`groupsMeasure 0` (`move_item_measure`), so with fuel
`groupsMeasure 0 groups + 1` the `0`-fuel branch is unreachable
(`pairing_loop_unfold` below recovers the exact loop equation). -/
def pairing_loop_fuel (db : DB) : Nat → List (List Nat) →
    Except PyErr (List Pairing)
  | 0, _ => .error .unresolvablePairing
  | fuel + 1, groups =>
    match generate_pairings db groups with
    | .ok ps => .ok ps
    | .error .valueError => .error .valueError
    | .error .nameMissing => .error .typeError
    | .error (.groupFailed i) =>
      if i + 2 > groups.length then .error .unresolvablePairing
      else
        match move_item_to_list groups i with
        | .error _ => .error .indexError
        | .ok g1 =>
          match move_item_to_list g1 i with
          | .error _ => .error .indexError
          | .ok g2 => pairing_loop_fuel db fuel g2

/-- The `while pairing_success is False` repair loop of `swissPairings`
(src lines 203-224): ask `generate_pairings` for a full pairing; on failure in
group `i`, give up if `i + 2 > len(win_groups)`, otherwise call
`move_item_to_list` twice and retry from scratch.  The second move can itself
raise `IndexError` (if the first move emptied and deleted the last remaining
higher bucket, or the next bucket is empty).  `pairing_loop_unfold` proves
this satisfies the loop's defining equation, so the fuel is invisible. -/
def pairing_loop (db : DB) (groups : List (List Nat)) :
    Except PyErr (List Pairing) :=
  pairing_loop_fuel db (groupsMeasure 0 groups + 1) groups

theorem pairing_loop_fuel_congr (db : DB) :
    ∀ (f1 : Nat) {f2 : Nat} {groups : List (List Nat)},
      groupsMeasure 0 groups < f1 → groupsMeasure 0 groups < f2 →
      pairing_loop_fuel db f1 groups = pairing_loop_fuel db f2 groups := by
  intro f1
  induction f1 with
  | zero => intro f2 groups h1 _; omega
  | succ a ih =>
    intro f2 groups h1 h2
    match f2, h2 with
    | b + 1, h2 =>
      cases hg : generate_pairings db groups with
      | ok ps => simp [pairing_loop_fuel, hg]
      | error e =>
        cases e with
        | valueError => simp [pairing_loop_fuel, hg]
        | nameMissing => simp [pairing_loop_fuel, hg]
        | groupFailed i =>
          by_cases hlen : i + 2 > groups.length
          · simp [pairing_loop_fuel, hg, hlen]
          · cases hm1 : move_item_to_list groups i with
            | error e1 => simp [pairing_loop_fuel, hg, hlen, hm1]
            | ok g1 =>
              cases hm2 : move_item_to_list g1 i with
              | error e2 => simp [pairing_loop_fuel, hg, hlen, hm1, hm2]
              | ok g2 =>
                have d1 := move_item_measure hm1 0
                have d2 := move_item_measure hm2 0
                simp only [pairing_loop_fuel, hg, hlen, if_false, hm1, hm2]
                exact ih (by omega) (by omega)

/-- The repair loop satisfies the Python while-loop's defining equation. -/
theorem pairing_loop_unfold (db : DB) (groups : List (List Nat)) :
    pairing_loop db groups =
      match generate_pairings db groups with
      | .ok ps => .ok ps
      | .error .valueError => .error .valueError
      | .error .nameMissing => .error .typeError
      | .error (.groupFailed i) =>
        if i + 2 > groups.length then .error .unresolvablePairing
        else
          match move_item_to_list groups i with
          | .error _ => .error .indexError
          | .ok g1 =>
            match move_item_to_list g1 i with
            | .error _ => .error .indexError
            | .ok g2 => pairing_loop db g2 := by
  show pairing_loop_fuel db (groupsMeasure 0 groups + 1) groups = _
  cases hg : generate_pairings db groups with
  | ok ps => simp [pairing_loop_fuel, hg]
  | error e =>
    cases e with
    | valueError => simp [pairing_loop_fuel, hg]
    | nameMissing => simp [pairing_loop_fuel, hg]
    | groupFailed i =>
      by_cases hlen : i + 2 > groups.length
      · simp [pairing_loop_fuel, hg, hlen]
      · cases hm1 : move_item_to_list groups i with
        | error e1 => simp [pairing_loop_fuel, hg, hlen, hm1]
        | ok g1 =>
          cases hm2 : move_item_to_list g1 i with
          | error e2 => simp [pairing_loop_fuel, hg, hlen, hm1, hm2]
          | ok g2 =>
            have d1 := move_item_measure hm1 0
            have d2 := move_item_measure hm2 0
            simp only [pairing_loop_fuel, hg, hlen, if_false, hm1, hm2]
            exact pairing_loop_fuel_congr db _ (by omega) (by omega)

/-- The bye-handling step of `swissPairings` (src lines 182-196): pick the bye
player, remove them from their win group, and emit the self-paired bye
pairing. -/
def bye_step (db : DB) (groups : List (List Nat)) :
    Except PyErr (List Pairing × List (List Nat)) :=
  match select_player_for_bye db with
  | none => .error .noEligibleByeCandidate
  | some b =>
    match id_to_name db b with
    | none => .error .typeError
    | some nm => .ok ([⟨b, nm, b, "Give a Bye"⟩], remove_from_groups groups b)

/-- The `matches` list of `swissPairings` (src line 152): the number of
matches played by each player, extracted from the standings. -/
def matchCounts (db : DB) : List Nat :=
  (playerStandings db).map (fun s => s.matchesPlayed)

/-- `max_num_wins = standings[0][2]` (src line 165).  Unreachable default for
an empty standings list (the first-round branch returns earlier). -/
def maxNumWins (db : DB) : Nat :=
  ((playerStandings db).headD ⟨0, "", 0, 0⟩).wins

/-- The `win_groups` list built at src lines 164-174. -/
def winGroups (db : DB) : List (List Nat) :=
  win_groups_of db (maxNumWins db)

/-- `swissPairings()` (src lines 132-226).  `shuf` stands for the result of
the in-place `shuffle` of the standings in the first-round branch; every
database access is a `SELECT`, so the function is a pure query of the state. -/
def swissPairings (db : DB) (shuf : List Standing) : Except PyErr (List Pairing) :=
  if (matchCounts db).sum == 0 then .ok (random_pairing shuf)
  else if (matchCounts db).max?.getD 0 ≠ (matchCounts db).min?.getD 0 then
    .error .incompleteRound
  else if ((winGroups db).getLastD []).length == 1 then .error .tournamentDecided
  else
    match (if (playerStandings db).length % 2 ≠ 0 then bye_step db (winGroups db)
           else .ok ([], winGroups db)) with
    | .error e => .error e
    | .ok (byePairings, groups1) =>
      match evenness_pass groups1 with
      | .error _ => .error .indexError
      | .ok groups2 =>
        match pairing_loop db groups2 with
        | .error e => .error e
        | .ok res => .ok (byePairings ++ res)

/-- `swissPairings` together with the database state after the call.  Every
statement executed in its call tree is a `SELECT` (src lines 149-224 and the
helpers at lines 229-247, 254-268, 271-322, 416-434); nothing writes or
commits, so the post-state is the input state unchanged.  (The only functions
that modify the tables are `reportMatch`, `registerPlayer` and the delete
helpers.) -/
def swissPairingsRun (db : DB) (shuf : List Standing) :
    Except PyErr (List Pairing) × DB :=
  (swissPairings db shuf, db)

/-! ## Basic lemmas: the stable sort -/

theorem insertSorted_perm (le : α → α → Bool) (x : α) (l : List α) :
    (insertSorted le x l).Perm (x :: l) := by
  induction l with
  | nil => simp [insertSorted]
  | cons y ys ih =>
    simp only [insertSorted]
    by_cases h : le x y
    · simp [h]
    · simp only [h, if_false]
      exact (ih.cons y).trans (List.Perm.swap x y ys)

theorem sortRows_perm (le : α → α → Bool) (l : List α) :
    (sortRows le l).Perm l := by
  induction l with
  | nil => simp [sortRows]
  | cons x xs ih =>
    exact (insertSorted_perm le x (sortRows le xs)).trans (ih.cons x)

theorem insertSorted_pairwise (le : α → α → Bool)
    (htot : ∀ a b, le a b || le b a) (htrans : ∀ a b c, le a b → le b c → le a c)
    (x : α) (l : List α) (hl : l.Pairwise (fun a b => le a b = true)) :
    (insertSorted le x l).Pairwise (fun a b => le a b = true) := by
  induction l with
  | nil => simp [insertSorted]
  | cons y ys ih =>
    simp only [insertSorted]
    rcases List.pairwise_cons.mp hl with ⟨hy, hys⟩
    by_cases h : le x y
    · simp only [h, if_true]
      refine List.pairwise_cons.mpr ⟨?_, hl⟩
      intro a ha
      rcases List.mem_cons.mp ha with rfl | ha
      · exact h
      · exact htrans x y a h (hy a ha)
    · simp only [h, if_false]
      refine List.pairwise_cons.mpr ⟨?_, ih hys⟩
      intro a ha
      have hymem := (insertSorted_perm le x ys).mem_iff.mp ha
      rcases List.mem_cons.mp hymem with h'' | ha'
      · rcases Bool.or_eq_true_iff.mp (htot x y) with h' | h'
        · exact absurd h' h
        · rw [h'']; exact h'
      · exact hy a ha'

theorem sortRows_pairwise (le : α → α → Bool)
    (htot : ∀ a b, le a b || le b a) (htrans : ∀ a b c, le a b → le b c → le a c)
    (l : List α) : (sortRows le l).Pairwise (fun a b => le a b = true) := by
  induction l with
  | nil => simp [sortRows]
  | cons x xs ih => exact insertSorted_pairwise le htot htrans x _ ih

/-- The head of a stably sorted list is `le`-below every element of the
original list. -/
theorem sortRows_head_le (le : α → α → Bool)
    (htot : ∀ a b, le a b || le b a) (htrans : ∀ a b c, le a b → le b c → le a c)
    (l : List α) (h : α) (t : List α) (heq : sortRows le l = h :: t) :
    ∀ y ∈ l, y = h ∨ le h y := by
  intro y hy
  have hmem : y ∈ h :: t := by
    rw [← heq]
    exact ((sortRows_perm le l).mem_iff).mpr hy
  rcases List.mem_cons.mp hmem with rfl | hmem'
  · exact Or.inl rfl
  · have hp := sortRows_pairwise le htot htrans l
    rw [heq] at hp
    exact Or.inr (List.rel_of_pairwise_cons hp hmem')

/-! ## `all_pairs` equals its recursive characterisation -/

theorem allPairsRecF_congr :
    ∀ (f1 : Nat) {f2 : Nat} (l : List Nat), l.length ≤ f1 → l.length ≤ f2 →
      allPairsRecF f1 l = allPairsRecF f2 l := by
  intro f1
  induction f1 with
  | zero =>
    intro f2 l h1 _
    have : l = [] := List.eq_nil_of_length_eq_zero (Nat.le_zero.mp h1)
    subst this
    cases f2 <;> rfl
  | succ a ih =>
    intro f2 l h1 h2
    match l with
    | [] => cases f2 <;> rfl
    | x :: rest =>
      match f2, h2 with
      | b + 1, h2 =>
        simp only [allPairsRecF]
        refine List.flatMap_congr ?_
        intro i hi
        have hi' : i < rest.length := List.mem_range.mp hi
        have hlen : (rest.eraseIdx i).length = rest.length - 1 :=
          List.length_eraseIdx_of_lt hi'
        have ha : (rest.eraseIdx i).length ≤ a := by
          simp only [List.length_cons] at h1; omega
        have hb : (rest.eraseIdx i).length ≤ b := by
          simp only [List.length_cons] at h2; omega
        exact congrArg (List.map _) (@ih b (rest.eraseIdx i) ha hb)

theorem allPairsRec_nil : allPairsRec [] = [[]] := rfl

theorem allPairsRec_cons (a : Nat) (rest : List Nat) :
    allPairsRec (a :: rest) =
      (List.range rest.length).flatMap (fun i =>
        (allPairsRec (rest.eraseIdx i)).map (fun m => (a, rest.getD i a) :: m)) := by
  show allPairsRecF ((a :: rest).length) (a :: rest) = _
  simp only [List.length_cons, allPairsRecF]
  refine List.flatMap_congr ?_
  intro i hi
  have hi' : i < rest.length := List.mem_range.mp hi
  have hlen : (rest.eraseIdx i).length = rest.length - 1 :=
    List.length_eraseIdx_of_lt hi'
  exact congrArg (List.map _)
    (@allPairsRecF_congr rest.length (rest.eraseIdx i).length (rest.eraseIdx i)
      (by omega) (Nat.le_refl _))

theorem oddRangeRev_succ (m : Nat) (hm : m % 2 = 1) :
    oddRangeRev (m + 1) = m :: oddRangeRev (m - 1) := by
  unfold oddRangeRev
  have h1 : (m + 1) / 2 = (m - 1) / 2 + 1 := by omega
  rw [h1, List.range'_concat]
  have h2 : 1 + 2 * ((m - 1) / 2) = m := by omega
  rw [h2, List.reverse_append]
  rfl

theorem buildPairs_cons (a : Nat) (t : List Nat) (i : Nat) (is : List Nat) :
    buildPairs (a :: t) (i :: is) =
      (a, t.getD i a) :: buildPairs (t.eraseIdx i) is := rfl

/-- On an even-length list `all_pairs` yields exactly the recursively
characterised sequence, in order. -/
theorem all_pairs_eq_rec :
    ∀ (n : Nat) (l : List Nat), l.length = n → l.length % 2 = 0 →
      all_pairs l = .ok (allPairsRec l) := by
  intro n
  induction n using Nat.strong_induction_on with
  | _ n ih =>
    intro l hn h
    unfold all_pairs
    rw [if_neg (by omega)]
    refine congrArg Except.ok ?_
    match l with
    | [] => rfl
    | a :: rest =>
      have hodd : rest.length % 2 = 1 := by
        simp only [List.length_cons] at h; omega
      have hlen1 : (a :: rest).length = rest.length + 1 := by simp
      rw [hlen1, oddRangeRev_succ rest.length hodd, List.map_cons]
      simp only [listProd]
      rw [List.map_flatMap, allPairsRec_cons]
      refine List.flatMap_congr ?_
      intro i hi
      have hi' : i < rest.length := List.mem_range.mp hi
      have hlen : (rest.eraseIdx i).length = rest.length - 1 :=
        List.length_eraseIdx_of_lt hi'
      rw [List.map_map]
      have hbody : (buildPairs (a :: rest)) ∘ (fun c => i :: c) =
          (fun m => ((a, rest.getD i a)) :: m) ∘ (buildPairs (rest.eraseIdx i)) := by
        funext c
        simp [Function.comp, buildPairs_cons]
      rw [hbody, ← List.map_map]
      have hrec := ih (rest.length - 1) (by omega) (rest.eraseIdx i) hlen (by omega)
      unfold all_pairs at hrec
      rw [if_neg (by omega)] at hrec
      have hcore := Except.ok.inj hrec
      rw [hlen] at hcore
      rw [hcore]

/-- `all_pairs` on an even-length list, as a plain equation. -/
theorem all_pairs_ok (l : List Nat) (h : l.length % 2 = 0) :
    all_pairs l = .ok (allPairsRec l) :=
  all_pairs_eq_rec l.length l rfl h

/-! ## Properties of the enumerated matchings (claim C3) -/

theorem getD_cons_eraseIdx_perm (d : Nat) :
    ∀ (t : List Nat) (i : Nat), i < t.length →
      List.Perm (t.getD i d :: t.eraseIdx i) t := by
  intro t
  induction t with
  | nil => intro i h; simp at h
  | cons x xs ih =>
    intro i h
    match i with
    | 0 => simp [List.getD_cons_zero, List.eraseIdx_cons_zero]
    | k + 1 =>
      have h' : k < xs.length := by simp at h; omega
      rw [List.getD_cons_succ, List.eraseIdx_cons_succ]
      exact (List.Perm.swap x (xs.getD k d) (xs.eraseIdx k)).trans
        (List.Perm.cons x (ih k h'))

theorem pairFlatten_nil : pairFlatten [] = [] := rfl

theorem pairFlatten_cons (p : Nat × Nat) (m : List (Nat × Nat)) :
    pairFlatten (p :: m) = p.1 :: p.2 :: pairFlatten m := rfl

theorem pairFlatten_perm {m1 m2 : List (Nat × Nat)} (h : m1.Perm m2) :
    (pairFlatten m1).Perm (pairFlatten m2) :=
  List.Perm.flatMap_right _ h

theorem pairMS_cons (p : Nat × Nat) (m : List (Nat × Nat)) :
    pairMS (p :: m) = Sym2.mk p ::ₘ pairMS m := by
  simp [pairMS]

theorem pairMS_perm {m1 m2 : List (Nat × Nat)} (h : m1.Perm m2) :
    pairMS m1 = pairMS m2 :=
  Multiset.coe_eq_coe.mpr (h.map _)

/-- A pair containing `x` contributes `x` to `pairFlatten`. -/
theorem mem_pairFlatten {x : Nat} {m : List (Nat × Nat)} :
    x ∈ pairFlatten m ↔ ∃ p ∈ m, x = p.1 ∨ x = p.2 := by
  simp only [pairFlatten, List.mem_flatMap, List.mem_cons, List.mem_singleton,
    List.not_mem_nil, or_false]

/-- Every matching `allPairsRec` yields uses exactly the ids of the input
list (as a permutation once flattened). -/
theorem allPairsRec_mem_perm :
    ∀ (n : Nat) (l : List Nat), l.length = n → l.length % 2 = 0 →
      ∀ m ∈ allPairsRec l, (pairFlatten m).Perm l := by
  intro n
  induction n using Nat.strong_induction_on with
  | _ n ih =>
    intro l hn h m hm
    match l with
    | [] =>
      rw [allPairsRec_nil] at hm
      simp only [List.mem_singleton] at hm
      subst hm
      simp [pairFlatten]
    | a :: rest =>
      rw [allPairsRec_cons] at hm
      simp only [List.mem_flatMap, List.mem_map, List.mem_range] at hm
      obtain ⟨i, hi, m', hm', rfl⟩ := hm
      have hlen : (rest.eraseIdx i).length = rest.length - 1 :=
        List.length_eraseIdx_of_lt hi
      have hrl : rest.length = n - 1 := by simp at hn; omega
      have hperm := ih (n - 2) (by simp at hn; omega) (rest.eraseIdx i)
        (by omega) (by simp at h; omega) m' hm'
      rw [pairFlatten_cons]
      refine List.Perm.cons a ?_
      exact (List.Perm.cons _ hperm).trans (getD_cons_eraseIdx_perm a rest i hi)

/-- `m % 2 = 1 → m‼ = m * (m - 2)‼` (covers `m = 1` as `1 * 0‼`). -/
theorem doubleFactorial_odd_step (m : Nat) (hm : m % 2 = 1) :
    Nat.doubleFactorial m = m * Nat.doubleFactorial (m - 2) := by
  match m, hm with
  | 0, hm => simp at hm
  | 1, _ => rfl
  | k + 2, _ => rfl

theorem sum_map_const_nat (n c : Nat) :
    (List.map (fun _ => c) (List.range n)).sum = n * c := by
  induction n with
  | zero => simp
  | succ k ihg =>
    rw [List.range_succ]
    simp only [List.map_append, List.sum_append, List.map_cons, List.map_nil,
      List.sum_cons, List.sum_nil, ihg]
    ring

/-- `allPairsRec` yields exactly `(n-1)‼` matchings on an even `n`-element
list. -/
theorem allPairsRec_length :
    ∀ (n : Nat) (l : List Nat), l.length = n → l.length % 2 = 0 →
      (allPairsRec l).length = Nat.doubleFactorial (l.length - 1) := by
  intro n
  induction n using Nat.strong_induction_on with
  | _ n ih =>
    intro l hn h
    match l with
    | [] => rfl
    | a :: rest =>
      rw [allPairsRec_cons, List.length_flatMap]
      have hodd : rest.length % 2 = 1 := by simp at h; omega
      have hconst : ∀ i ∈ List.range rest.length,
          (List.length ∘ (fun i => (allPairsRec (rest.eraseIdx i)).map
            (fun m => (a, rest.getD i a) :: m))) i =
          Nat.doubleFactorial (rest.length - 2) := by
        intro i hi
        have hi' : i < rest.length := List.mem_range.mp hi
        have hlen : (rest.eraseIdx i).length = rest.length - 1 :=
          List.length_eraseIdx_of_lt hi'
        simp only [Function.comp, List.length_map]
        rw [ih (rest.length - 1) (by simp at hn; omega) (rest.eraseIdx i) hlen
          (by omega), hlen]
        rw [show rest.length - 1 - 1 = rest.length - 2 from by omega]
      rw [List.map_congr_left hconst, sum_map_const_nat, List.length_cons]
      rw [show rest.length + 1 - 1 = rest.length from rfl]
      exact (doubleFactorial_odd_step rest.length hodd).symm

/-- The matchings `allPairsRec` yields are pairwise distinct lists. -/
theorem allPairsRec_nodup :
    ∀ (n : Nat) (l : List Nat), l.length = n → l.length % 2 = 0 → l.Nodup →
      (allPairsRec l).Nodup := by
  intro n
  induction n using Nat.strong_induction_on with
  | _ n ih =>
    intro l hn h hnd
    match l with
    | [] => rw [allPairsRec_nil]; simp
    | a :: rest =>
      rw [allPairsRec_cons, List.nodup_flatMap]
      have hndrest : rest.Nodup := (List.nodup_cons.mp hnd).2
      constructor
      · intro i hi
        have hi' : i < rest.length := List.mem_range.mp hi
        have hlen : (rest.eraseIdx i).length = rest.length - 1 :=
          List.length_eraseIdx_of_lt hi'
        refine List.Nodup.map ?_ ?_
        · intro m1 m2 he
          exact (List.cons.injEq _ _ _ _).mp he |>.2
        · exact ih (n - 2) (by simp at hn; omega) (rest.eraseIdx i)
            (by simp at hn; omega)
            (by simp at h; omega)
            ((List.eraseIdx_sublist rest i).nodup hndrest)
      · refine (List.pairwise_lt_range rest.length).imp_of_mem ?_
        intro i j hi hj hij
        have hi' : i < rest.length := List.mem_range.mp hi
        have hj' : j < rest.length := List.mem_range.mp hj
        intro x hx1 hx2
        simp only [List.mem_map] at hx1 hx2
        obtain ⟨m1, _, he1⟩ := hx1
        obtain ⟨m2, _, he2⟩ := hx2
        rw [← he2] at he1
        have hhead := ((List.cons.injEq _ _ _ _).mp he1).1
        have hgd : rest.getD i a = rest.getD j a := (Prod.mk.injEq _ _ _ _).mp hhead |>.2
        rw [List.getD_eq_getElem rest a hi', List.getD_eq_getElem rest a hj'] at hgd
        exact absurd ((List.Nodup.getElem_inj_iff hndrest).mp hgd) (by omega)

theorem consecPairs_cons (a b : Nat) (t : List Nat) :
    consecPairs (a :: b :: t) = (a, b) :: consecPairs t := rfl

/-- The first matching `allPairsRec` yields pairs consecutive elements. -/
theorem allPairsRec_head :
    ∀ (n : Nat) (l : List Nat), l.length = n → l.length % 2 = 0 →
      (allPairsRec l).head? = some (consecPairs l) := by
  intro n
  induction n using Nat.strong_induction_on with
  | _ n ih =>
    intro l hn h
    match l with
    | [] => rfl
    | [a] => simp at h
    | a :: b :: t =>
      rw [allPairsRec_cons]
      show (((List.range (t.length + 1)).flatMap _).head?) = _
      rw [List.range_succ_eq_map, List.flatMap_cons, List.head?_append]
      simp only [List.eraseIdx_cons_zero, List.getD_cons_zero, List.head?_map]
      have hih := ih (n - 2) (by simp at hn; omega) t (by simp at hn; omega)
        (by simp at h; omega)
      rw [hih]
      simp [consecPairs_cons]

theorem pairFlatten_eq_nil {m : List (Nat × Nat)} (h : pairFlatten m = []) :
    m = [] := by
  cases m with
  | nil => rfl
  | cons p m' => rw [pairFlatten_cons] at h; cases h

/-- Distinct matchings in the enumeration denote distinct unordered-pair
multisets: the enumeration has no duplicates even up to pair order and pair
orientation. -/
theorem allPairsRec_pairMS_inj :
    ∀ (n : Nat) (l : List Nat), l.length = n → l.length % 2 = 0 → l.Nodup →
      ∀ m1 ∈ allPairsRec l, ∀ m2 ∈ allPairsRec l,
        pairMS m1 = pairMS m2 → m1 = m2 := by
  intro n
  induction n using Nat.strong_induction_on with
  | _ n ih =>
    intro l hn h hnd m1 hm1 m2 hm2 hms
    match l with
    | [] =>
      rw [allPairsRec_nil] at hm1 hm2
      simp only [List.mem_singleton] at hm1 hm2
      rw [hm1, hm2]
    | a :: rest =>
      rw [allPairsRec_cons] at hm1 hm2
      simp only [List.mem_flatMap, List.mem_map, List.mem_range] at hm1 hm2
      obtain ⟨i, hi, m1', hm1', rfl⟩ := hm1
      obtain ⟨j, hj, m2', hm2', rfl⟩ := hm2
      have hnda : a ∉ rest := (List.nodup_cons.mp hnd).1
      have hndrest : rest.Nodup := (List.nodup_cons.mp hnd).2
      have hlen_i : (rest.eraseIdx i).length = rest.length - 1 :=
        List.length_eraseIdx_of_lt hi
      have hlen_j : (rest.eraseIdx j).length = rest.length - 1 :=
        List.length_eraseIdx_of_lt hj
      have haj : a ∉ pairFlatten m2' := by
        intro hc
        have hp := allPairsRec_mem_perm (n - 2) (rest.eraseIdx j)
          (by simp at hn; omega) (by simp at h; omega) m2' hm2'
        have hmem : a ∈ rest.eraseIdx j := hp.mem_iff.mp hc
        exact hnda ((List.eraseIdx_sublist rest j).mem hmem)
      rw [pairMS_cons, pairMS_cons] at hms
      have hhead : Sym2.mk (a, rest.getD i a) = Sym2.mk (a, rest.getD j a) := by
        have hmem : Sym2.mk (a, rest.getD i a) ∈
            (Sym2.mk (a, rest.getD j a) ::ₘ pairMS m2') := by
          rw [← hms]; exact Multiset.mem_cons_self _ _
        rcases Multiset.mem_cons.mp hmem with he | hin
        · exact he
        · exfalso
          simp only [pairMS, Multiset.mem_coe, List.mem_map] at hin
          obtain ⟨p, hp, hps⟩ := hin
          obtain ⟨p1, p2⟩ := p
          have hamem : a ∈ Sym2.mk (p1, p2) := by
            rw [hps]; exact Sym2.mem_mk_left a _
          rcases Sym2.mem_iff.mp hamem with he1 | he2
          · exact haj (mem_pairFlatten.mpr ⟨(p1, p2), hp, Or.inl he1⟩)
          · exact haj (mem_pairFlatten.mpr ⟨(p1, p2), hp, Or.inr he2⟩)
      have hri : rest.getD i a = rest.getD j a := by
        rcases Sym2.eq_iff.mp hhead with ⟨_, he⟩ | ⟨he1, he2⟩
        · exact he
        · rw [he2]; exact he1
      have hij : i = j := by
        rw [List.getD_eq_getElem rest a hi, List.getD_eq_getElem rest a hj] at hri
        exact (List.Nodup.getElem_inj_iff hndrest).mp hri
      subst hij
      have htails : pairMS m1' = pairMS m2' :=
        (Multiset.cons_inj_right _).mp hms
      have hn' : rest.length + 1 = n := by
        simp only [List.length_cons] at hn; exact hn
      have hrlen : rest.length % 2 = 1 := by
        simp only [List.length_cons] at h; omega
      have := ih (n - 2) (by omega) (rest.eraseIdx i)
        (by omega) (by omega)
        ((List.eraseIdx_sublist rest i).nodup hndrest)
        m1' hm1' m2' hm2' htails
      rw [this]

/-- Completeness: every partition of the input ids into ordered pairs is
realised, up to pair order and orientation, by some matching in the
enumeration. -/
theorem allPairsRec_complete :
    ∀ (n : Nat) (l : List Nat), l.length = n → l.length % 2 = 0 → l.Nodup →
      ∀ m : List (Nat × Nat), (pairFlatten m).Perm l →
        ∃ m' ∈ allPairsRec l, pairMS m' = pairMS m := by
  intro n
  induction n using Nat.strong_induction_on with
  | _ n ih =>
    intro l hn h hnd m hm
    match l with
    | [] =>
      have : m = [] := pairFlatten_eq_nil (List.perm_nil.mp hm)
      subst this
      exact ⟨[], by rw [allPairsRec_nil]; simp, rfl⟩
    | a :: rest =>
      have hndrest : rest.Nodup := (List.nodup_cons.mp hnd).2
      have hn' : rest.length + 1 = n := by
        simp only [List.length_cons] at hn; exact hn
      have hrlen : rest.length % 2 = 1 := by
        simp only [List.length_cons] at h; omega
      have hamem : a ∈ pairFlatten m := hm.mem_iff.mpr (List.mem_cons_self a rest)
      obtain ⟨p, hpm, hor⟩ := mem_pairFlatten.mp hamem
      obtain ⟨p1, p2⟩ := p
      obtain ⟨m0, hm0⟩ : ∃ m0, m.Perm ((p1, p2) :: m0) :=
        ⟨_, List.perm_cons_erase hpm⟩
      have hflat : (p1 :: p2 :: pairFlatten m0).Perm (a :: rest) := by
        have h1 := pairFlatten_perm hm0
        rw [pairFlatten_cons] at h1
        exact h1.symm.trans hm
      have main : ∀ b : Nat,
          (b :: pairFlatten m0).Perm rest →
          Sym2.mk (p1, p2) = Sym2.mk (a, b) →
          ∃ m' ∈ allPairsRec (a :: rest), pairMS m' = pairMS m := by
        intro b hbrest hsym
        have hb : b ∈ rest := hbrest.mem_iff.mp (List.mem_cons_self b _)
        obtain ⟨i, hi, hgi⟩ := List.getElem_of_mem hb
        have hia : rest.getD i a = b := by
          rw [List.getD_eq_getElem rest a hi]; exact hgi
        have hper := getD_cons_eraseIdx_perm a rest i hi
        rw [hia] at hper
        have hF0 : (pairFlatten m0).Perm (rest.eraseIdx i) :=
          List.Perm.cons_inv (hbrest.trans hper.symm)
        have hlen : (rest.eraseIdx i).length = rest.length - 1 :=
          List.length_eraseIdx_of_lt hi
        obtain ⟨m0', hm0mem, hms0⟩ := ih (n - 2) (by omega)
          (rest.eraseIdx i) (by omega) (by omega)
          ((List.eraseIdx_sublist rest i).nodup hndrest)
          m0 hF0
        refine ⟨(a, rest.getD i a) :: m0', ?_, ?_⟩
        · rw [allPairsRec_cons]
          exact List.mem_flatMap.mpr ⟨i, List.mem_range.mpr hi,
            List.mem_map.mpr ⟨m0', hm0mem, rfl⟩⟩
        · rw [pairMS_cons, hms0, hia, ← hsym, ← pairMS_cons]
          exact (pairMS_perm hm0).symm
      rcases hor with hap | hap
      · replace hap : a = p1 := hap
        refine main p2 ?_ ?_
        · rw [← hap] at hflat
          exact hflat.cons_inv
        · rw [← hap]
      · replace hap : a = p2 := hap
        refine main p1 ?_ ?_
        · rw [← hap] at hflat
          have hswap : (a :: p1 :: pairFlatten m0).Perm
              (p1 :: a :: pairFlatten m0) :=
            List.Perm.swap p1 a _
          exact (hswap.trans hflat).cons_inv
        · rw [← hap]
          exact Sym2.eq_swap

/-! ## Claim C3 and C10 -/

/-- C3: on every even-length list of `2k` distinct ids, `all_pairs` yields
exactly `(2k-1)!!` matchings; each yielded matching partitions the ids into
disjoint pairs covering every id exactly once (its flattened id list is a
permutation of the input); there are no duplicate matchings (the yielded
lists are pairwise distinct, and even distinct as unordered-pair multisets)
and no omitted matchings (every pairing-up of the ids is realised up to pair
order and orientation); and the first matching yielded pairs consecutive
elements of the list. -/
theorem c3_all_pairs_enumeration (lst : List Nat)
    (hnd : lst.Nodup) (hev : lst.length % 2 = 0) :
    all_pairs lst = .ok (allPairsRec lst) ∧
    (allPairsRec lst).length = Nat.doubleFactorial (lst.length - 1) ∧
    (∀ m ∈ allPairsRec lst, (pairFlatten m).Perm lst) ∧
    (allPairsRec lst).Nodup ∧
    (∀ m1 ∈ allPairsRec lst, ∀ m2 ∈ allPairsRec lst,
      pairMS m1 = pairMS m2 → m1 = m2) ∧
    (∀ m : List (Nat × Nat), (pairFlatten m).Perm lst →
      ∃ m' ∈ allPairsRec lst, pairMS m' = pairMS m) ∧
    (allPairsRec lst).head? = some (consecPairs lst) :=
  ⟨all_pairs_ok lst hev,
   allPairsRec_length lst.length lst rfl hev,
   allPairsRec_mem_perm lst.length lst rfl hev,
   allPairsRec_nodup lst.length lst rfl hev hnd,
   allPairsRec_pairMS_inj lst.length lst rfl hev hnd,
   allPairsRec_complete lst.length lst rfl hev hnd,
   allPairsRec_head lst.length lst rfl hev⟩

/-- Witness for C3 at the concrete list `[1, 2, 3, 4]`. -/
theorem c3_all_pairs_enumeration_witness :
    all_pairs [1, 2, 3, 4] = .ok (allPairsRec [1, 2, 3, 4]) ∧
    (allPairsRec [1, 2, 3, 4]).length =
      Nat.doubleFactorial ([1, 2, 3, 4].length - 1) ∧
    (allPairsRec [1, 2, 3, 4]).head? = some (consecPairs [1, 2, 3, 4]) := by
  have h := c3_all_pairs_enumeration [1, 2, 3, 4] (by decide) (by decide)
  exact ⟨h.1, h.2.1, h.2.2.2.2.2.2⟩

/-- C10: `all_pairs` raises `ValueError` exactly on odd-length inputs; on
every even-length input (the empty list included) it yields at least one
matching without error, and on the empty list it yields exactly one empty
matching. -/
theorem c10_all_pairs_error_iff_odd :
    (∀ lst : List Nat, (∃ e, all_pairs lst = .error e) ↔ lst.length % 2 = 1) ∧
    (∀ lst : List Nat, lst.length % 2 = 0 →
      ∃ out, all_pairs lst = .ok out ∧ out ≠ []) ∧
    all_pairs ([] : List Nat) = .ok [[]] := by
  refine ⟨?_, ?_, rfl⟩
  · intro lst
    constructor
    · intro ⟨e, he⟩
      by_contra hodd
      rw [all_pairs_ok lst (by omega)] at he
      cases he
    · intro hodd
      refine ⟨"The list must have an even number of items.", ?_⟩
      unfold all_pairs
      rw [if_pos (by omega)]
  · intro lst hev
    refine ⟨allPairsRec lst, all_pairs_ok lst hev, ?_⟩
    have hlen := allPairsRec_length lst.length lst rfl hev
    have hpos := Nat.doubleFactorial_pos (lst.length - 1)
    intro hc
    rw [hc] at hlen
    simp at hlen
    omega

/-- Witness for C10: odd input `[1, 2, 3]` errors, even input `[1, 2]`
yields a nonempty sequence. -/
theorem c10_all_pairs_error_iff_odd_witness :
    (∃ e, all_pairs [1, 2, 3] = .error e) ∧
    (∃ out, all_pairs [1, 2] = .ok out ∧ out ≠ []) :=
  ⟨(c10_all_pairs_error_iff_odd.1 [1, 2, 3]).mpr (by decide),
   c10_all_pairs_error_iff_odd.2.1 [1, 2] (by decide)⟩

/-! ## Claim C9: `reportMatch` and the at-most-one-bye invariant -/

/-- The `had_bye` flag of the first `players` row with the given id (the
value `fetchone()` sees at src line 116). -/
def hadByeOf (db : DB) (pid : Nat) : Option Bool :=
  (db.players.find? (fun p => p.id == pid)).map (fun p => p.had_bye)

/-- How many bye matches (null loser) are recorded for a player. -/
def byeCount (db : DB) (pid : Nat) : Nat :=
  (db.matchList.filter (fun m => m == ((pid, none) : MatchRow))).length

/-- The at-most-one-bye state invariant: no player has two recorded byes,
and any recorded bye is reflected in the player's `had_bye` flag. -/
def ByeInv (db : DB) : Prop :=
  ∀ q, byeCount db q ≤ 1 ∧ (1 ≤ byeCount db q → hadByeOf db q = some true)

theorem find?_set_had_bye (p : Nat) :
    ∀ (players : List PlayerRow) (row : PlayerRow),
      players.find? (fun r => r.id == p) = some row →
      (players.map (fun r => if r.id == p then { r with had_bye := true } else r)).find?
          (fun r => r.id == p) = some { row with had_bye := true } := by
  intro players
  induction players with
  | nil => intro row h; simp [List.find?] at h
  | cons r rs ih =>
    intro row h
    simp only [List.find?_cons] at h
    by_cases hr : (r.id == p) = true
    · simp only [hr] at h
      cases h
      simp only [List.map_cons, hr, if_true, List.find?_cons]
    · simp only [Bool.not_eq_true] at hr
      simp only [hr] at h
      simp only [List.map_cons, hr, Bool.false_eq_true, if_false, List.find?_cons]
      exact ih row h

theorem find?_set_had_bye_ne (p q : Nat) (hne : q ≠ p) :
    ∀ (players : List PlayerRow),
      (players.map (fun r => if r.id == p then { r with had_bye := true } else r)).find?
          (fun r => r.id == q) = players.find? (fun r => r.id == q) := by
  intro players
  induction players with
  | nil => rfl
  | cons r rs ih =>
    by_cases hr : (r.id == q) = true
    · have hrp : (r.id == p) = false := by
        have : r.id = q := by simpa using hr
        simp [this, hne]
      simp only [List.map_cons, hrp, Bool.false_eq_true, if_false,
        List.find?_cons, hr]
    · simp only [Bool.not_eq_true] at hr
      simp only [List.map_cons]
      by_cases hrp : (r.id == p) = true
      · simp only [hrp, if_true, List.find?_cons]
        have hr' : (({ r with had_bye := true } : PlayerRow).id == q) = false := hr
        simp only [hr', hr]
        exact ih
      · simp only [Bool.not_eq_true] at hrp
        simp only [hrp, Bool.false_eq_true, if_false, List.find?_cons, hr]
        exact ih

theorem byeCount_append_nonbye (db : DB) (q w l : Nat) :
    byeCount ⟨db.players, db.matchList ++ [(w, some l)]⟩ q = byeCount db q := by
  simp [byeCount, List.filter_append]

theorem byeCount_append_bye (db : DB) (q p : Nat) :
    byeCount ⟨db.players, db.matchList ++ [(p, none)]⟩ q =
      byeCount db q + (if q = p then 1 else 0) := by
  by_cases h : q = p
  · simp [byeCount, List.filter_append, h, Prod.ext_iff]
  · have h' : ¬p = q := fun hc => h hc.symm
    simp [byeCount, List.filter_append, h, h', Prod.ext_iff]

/-- C9: each player receives at most one bye.  If `reportMatch` is called
with no loser for a player whose `had_bye` is already true, nothing is
recorded and the state is unchanged; otherwise it flips that player's
`had_bye` to true and appends a bye match with a null loser; and the
at-most-one-bye invariant is preserved by every successful `reportMatch`
call. -/
theorem c9_reportMatch_at_most_one_bye (db : DB) (p : Nat) :
    (hadByeOf db p = some true → reportMatch db p none = some db) ∧
    (hadByeOf db p = some false →
      ∃ db', reportMatch db p none = some db' ∧
        hadByeOf db' p = some true ∧
        db'.matchList = db.matchList ++ [(p, none)] ∧
        (∀ q, q ≠ p → hadByeOf db' q = hadByeOf db q) ∧
        db'.players.map (fun r => r.id) = db.players.map (fun r => r.id)) ∧
    (ByeInv db → ∀ w l db', reportMatch db w l = some db' → ByeInv db') := by
  refine ⟨?_, ?_, ?_⟩
  · intro h
    unfold hadByeOf at h
    unfold reportMatch
    cases hf : db.players.find? (fun r => r.id == p) with
    | none => rw [hf] at h; cases h
    | some row =>
      rw [hf] at h
      have hb : row.had_bye = true := by simpa using h
      simp [hb]
  · intro h
    unfold hadByeOf at h
    cases hf : db.players.find? (fun r => r.id == p) with
    | none => rw [hf] at h; cases h
    | some row =>
      rw [hf] at h
      have hb : row.had_bye = false := by simpa using h
      refine ⟨⟨db.players.map (fun r =>
          if r.id == p then { r with had_bye := true } else r),
          db.matchList ++ [(p, none)]⟩, ?_, ?_, rfl, ?_, ?_⟩
      · unfold reportMatch
        rw [hf]
        simp [hb]
      · show Option.map (fun r => r.had_bye)
          ((db.players.map (fun r =>
            if r.id == p then { r with had_bye := true } else r)).find?
              (fun r => r.id == p)) = some true
        rw [find?_set_had_bye p db.players row hf]
        rfl
      · intro q hq
        show Option.map (fun r => r.had_bye)
          ((db.players.map (fun r =>
            if r.id == p then { r with had_bye := true } else r)).find?
              (fun r => r.id == q)) = hadByeOf db q
        rw [find?_set_had_bye_ne p q hq db.players]
        rfl
      · show (db.players.map (fun r =>
            if r.id == p then { r with had_bye := true } else r)).map
              (fun r => r.id) = db.players.map (fun r => r.id)
        rw [List.map_map]
        refine List.map_congr_left ?_
        intro r _
        by_cases hr : r.id = p <;> simp [hr]
  · intro hinv w l db' hrep
    cases l with
    | some lid =>
      unfold reportMatch at hrep
      simp only [Option.some.injEq] at hrep
      cases hrep
      intro q
      have h1 := hinv q
      have heq : byeCount ⟨db.players, db.matchList ++ [(w, some lid)]⟩ q =
          byeCount db q := by
        simp [byeCount, List.filter_append]
      exact ⟨heq.trans_le h1.1, fun hc => h1.2 (heq ▸ hc)⟩
    | none =>
      unfold reportMatch at hrep
      cases hf : db.players.find? (fun r => r.id == w) with
      | none => rw [hf] at hrep; simp at hrep
      | some row =>
        rw [hf] at hrep
        simp only at hrep
        by_cases hb : row.had_bye
        · rw [if_pos hb] at hrep
          cases hrep
          exact hinv
        · rw [if_neg hb] at hrep
          cases hrep
          intro q
          have hcnt : byeCount ⟨db.players.map (fun r =>
              if r.id == w then { r with had_bye := true } else r),
              db.matchList ++ [(w, none)]⟩ q =
              byeCount db q + (if q = w then 1 else 0) := by
            by_cases hqw : q = w
            · simp [byeCount, List.filter_append, hqw, Prod.ext_iff]
            · have hqw' : ¬w = q := fun hc => hqw hc.symm
              simp [byeCount, List.filter_append, hqw, hqw', Prod.ext_iff]
          by_cases hq : q = w
          · subst hq
            have hc0 : byeCount db q = 0 := by
              rcases Nat.eq_zero_or_pos (byeCount db q) with h0 | hpos
              · exact h0
              · have hby := (hinv q).2 hpos
                unfold hadByeOf at hby
                rw [hf] at hby
                have : row.had_bye = true := by simpa using hby
                exact absurd this hb
            constructor
            · rw [hcnt, hc0]
              simp
            · intro _
              show Option.map (fun r => r.had_bye)
                ((db.players.map (fun r =>
                  if r.id == q then { r with had_bye := true } else r)).find?
                    (fun r => r.id == q)) = some true
              rw [find?_set_had_bye q db.players row hf]
              rfl
          · constructor
            · rw [hcnt]
              simp only [hq, if_false, Nat.add_zero]
              exact (hinv q).1
            · rw [hcnt]
              simp only [hq, if_false, Nat.add_zero]
              intro hc
              show Option.map (fun r => r.had_bye)
                ((db.players.map (fun r =>
                  if r.id == w then { r with had_bye := true } else r)).find?
                    (fun r => r.id == q)) = some true
              rw [find?_set_had_bye_ne w q hq db.players]
              exact (hinv q).2 hc

/-- Witness for C9 at a concrete three-player state. -/
theorem c9_reportMatch_at_most_one_bye_witness :
    (reportMatch ⟨[⟨1, "A", false⟩, ⟨2, "B", true⟩], [(2, none)]⟩ 2 none =
      some ⟨[⟨1, "A", false⟩, ⟨2, "B", true⟩], [(2, none)]⟩) ∧
    (∃ db', reportMatch ⟨[⟨1, "A", false⟩, ⟨2, "B", true⟩], [(2, none)]⟩ 1 none =
        some db' ∧
      hadByeOf db' 1 = some true ∧
      db'.matchList = [(2, none), (1, none)] ∧
      (∀ q, q ≠ 1 → hadByeOf db' q =
        hadByeOf ⟨[⟨1, "A", false⟩, ⟨2, "B", true⟩], [(2, none)]⟩ q) ∧
      db'.players.map (fun r => r.id) = [1, 2]) := by
  constructor
  · exact (c9_reportMatch_at_most_one_bye
      ⟨[⟨1, "A", false⟩, ⟨2, "B", true⟩], [(2, none)]⟩ 2).1 (by decide)
  · obtain ⟨db', h1, h2, h3, h4, h5⟩ := (c9_reportMatch_at_most_one_bye
      ⟨[⟨1, "A", false⟩, ⟨2, "B", true⟩], [(2, none)]⟩ 1).2.1 (by decide)
    exact ⟨db', h1, h2, h3, h4, h5⟩

/-! ## Standings and win-group lemmas -/

/-- The standings rows before sorting. -/
def rawStandings (db : DB) : List Standing :=
  db.players.map (fun p => ⟨p.id, p.name, winsOf db p.id, matchesPlayedOf db p.id⟩)

theorem playerStandings_def (db : DB) :
    playerStandings db =
      sortRows (fun a b => decide (b.wins ≤ a.wins)) (rawStandings db) := rfl

theorem playerStandings_perm (db : DB) :
    (playerStandings db).Perm (rawStandings db) :=
  sortRows_perm _ _

theorem playerStandings_ids_perm (db : DB) :
    ((playerStandings db).map (fun s => s.id)).Perm
      (db.players.map (fun p => p.id)) := by
  have h := (playerStandings_perm db).map (fun s => s.id)
  refine h.trans ?_
  rw [show (rawStandings db).map (fun s => s.id) =
      db.players.map (fun p => p.id) from ?_]
  unfold rawStandings
  rw [List.map_map]
  rfl

/-- Every player's win count is bounded by `maxNumWins` (the standings are
sorted descending, so the head row carries the maximum). -/
theorem winsOf_le_maxNumWins (db : DB) :
    ∀ p ∈ db.players, winsOf db p.id ≤ maxNumWins db := by
  intro p hp
  have htot : ∀ a b : Standing,
      (decide (b.wins ≤ a.wins) || decide (a.wins ≤ b.wins)) = true := by
    intro a b
    rcases Nat.le_total b.wins a.wins with h | h <;> simp [h]
  have htrans : ∀ a b c : Standing, decide (b.wins ≤ a.wins) = true →
      decide (c.wins ≤ b.wins) = true → decide (c.wins ≤ a.wins) = true := by
    intro a b c h1 h2
    simp only [decide_eq_true_eq] at h1 h2 ⊢
    omega
  have hmem : (⟨p.id, p.name, winsOf db p.id, matchesPlayedOf db p.id⟩ : Standing)
      ∈ rawStandings db := List.mem_map.mpr ⟨p, hp, rfl⟩
  cases hps : playerStandings db with
  | nil =>
    have := (playerStandings_perm db).symm.mem_iff.mp hmem
    rw [hps] at this
    cases this
  | cons s t =>
    have hhead := sortRows_head_le _ htot htrans (rawStandings db) s t
      (by rw [← playerStandings_def]; exact hps)
      _ hmem
    have hmw : maxNumWins db = s.wins := by
      unfold maxNumWins
      rw [hps]
      rfl
    rcases hhead with he | hle
    · rw [hmw, ← he]
    · rw [hmw]
      simpa using hle

/-- The concatenation of filters over `range k` is, up to order, the filter
of `f x < k` (the filters are mutually exclusive buckets). -/
theorem filter_disjoint_append_perm (p q : α → Bool)
    (hpq : ∀ x, ¬(p x = true ∧ q x = true)) :
    ∀ l : List α, (l.filter p ++ l.filter q).Perm
      (l.filter (fun x => p x || q x)) := by
  intro l
  induction l with
  | nil => simp
  | cons x xs ih =>
    cases hp : p x
    · cases hq : q x
      · simp only [List.filter_cons, hp, hq, Bool.or_self, Bool.false_eq_true,
          if_false]
        exact ih
      · simp only [List.filter_cons, hp, hq, Bool.false_or, Bool.false_eq_true,
          if_false, if_true]
        exact List.perm_middle.trans (ih.cons x)
    · cases hq : q x
      · simp only [List.filter_cons, hp, hq, Bool.or_false, Bool.false_eq_true,
          if_false, if_true, List.cons_append]
        exact ih.cons x
      · exact absurd ⟨hp, hq⟩ (hpq x)

/-- Bucketing a list by the exact value of `f` over `0 .. k-1` is a
permutation of keeping the entries with `f x < k`. -/
theorem flatten_range_filter_perm (f : α → Nat) :
    ∀ (k : Nat) (l : List α),
      (((List.range k).map (fun w => l.filter (fun x => f x == w))).flatten).Perm
        (l.filter (fun x => decide (f x < k))) := by
  intro k
  induction k with
  | zero => intro l; simp
  | succ k ih =>
    intro l
    rw [List.range_succ, List.map_append, List.flatten_append]
    simp only [List.map_cons, List.map_nil, List.flatten_cons,
      List.flatten_nil, List.append_nil]
    have h1 : ((List.range k).map (fun w => l.filter (fun x => f x == w))).flatten
        ++ l.filter (fun x => f x == k) |>.Perm
        (l.filter (fun x => decide (f x < k)) ++ l.filter (fun x => f x == k)) :=
      (ih l).append_right _
    refine h1.trans ?_
    have h2 := filter_disjoint_append_perm
      (fun x => decide (f x < k)) (fun x => f x == k)
      (by intro x ⟨ha, hb⟩
          simp only [decide_eq_true_eq] at ha
          have : f x = k := by simpa using hb
          omega) l
    refine h2.trans ?_
    have hcong : ∀ x ∈ l, (decide (f x < k) || (f x == k)) = decide (f x < k + 1) := by
      intro x _
      by_cases hlt : f x < k + 1
      · simp only [hlt, decide_eq_true_eq]
        by_cases h1 : f x < k
        · simp [h1]
        · have h2' : f x = k := by omega
          simp [h2', h1]
      · have h1 : ¬ f x < k := by omega
        have h2' : ¬ f x = k := by omega
        simp [hlt, h1, h2']
    rw [List.filter_congr hcong]

/-- The win groups cover exactly the player ids (modelled `num_wins` view). -/
theorem winGroups_flatten_perm (db : DB) :
    ((winGroups db).flatten).Perm (db.players.map (fun p => p.id)) := by
  unfold winGroups win_groups_of
  have hflat : ∀ (k : Nat) (l : List PlayerRow),
      ((List.range k).map (fun w =>
        (l.filter (fun p => winsOf db p.id == w)).map (fun p => p.id))).flatten =
      (((List.range k).map (fun w =>
        l.filter (fun p => winsOf db p.id == w))).flatten).map (fun p => p.id) := by
    intro k l
    rw [List.map_flatten, List.map_map]
    rfl
  rw [hflat]
  have h1 := (flatten_range_filter_perm (fun p : PlayerRow => winsOf db p.id)
    (maxNumWins db + 1) db.players).map (fun p => p.id)
  refine h1.trans ?_
  rw [List.filter_eq_self.mpr ?_]
  intro p hp
  have := winsOf_le_maxNumWins db p hp
  simp only [decide_eq_true_eq]
  omega

/-! ## Flatten preservation through the rebalancing helpers -/

theorem remove_from_groups_flatten (x : Nat) :
    ∀ gs : List (List Nat),
      (remove_from_groups gs x).flatten = (gs.flatten).erase x := by
  intro gs
  induction gs with
  | nil => rfl
  | cons g rest ih =>
    unfold remove_from_groups
    by_cases hx : x ∈ g
    · simp only [hx, if_true, List.flatten_cons]
      rw [List.erase_append_left _ hx]
    · simp only [hx, if_false, List.flatten_cons, ih]
      rw [List.erase_append_right _ hx]

theorem move_item_flatten {gs gs' : List (List Nat)} {i : Nat}
    (h : move_item_to_list gs i = .ok gs') : gs'.flatten = gs.flatten := by
  induction gs generalizing gs' i with
  | nil => simp [move_item_to_list] at h
  | cons g rest ih =>
    match i, rest with
    | 0, [] => simp [move_item_to_list] at h
    | 0, g1 :: rest' =>
      match g1 with
      | [] => simp [move_item_to_list] at h
      | x :: xs =>
        simp only [move_item_to_list] at h
        cases h
        by_cases hxs : xs.isEmpty
        · have hx : xs = [] := List.isEmpty_iff.mp hxs
          subst hx
          simp [List.flatten_cons, List.append_assoc]
        · simp [hxs, List.flatten_cons, List.append_assoc]
    | n + 1, rest =>
      simp only [move_item_to_list, Except.map] at h
      cases hrec : move_item_to_list rest n with
      | error e => rw [hrec] at h; simp at h
      | ok rs =>
        rw [hrec] at h
        simp only at h
        cases h
        simp only [List.flatten_cons, ih hrec]

theorem evenness_go_flatten :
    ∀ (fuel i : Nat) (gs gs' : List (List Nat)),
      evenness_go fuel i gs = .ok gs' → gs'.flatten = gs.flatten := by
  intro fuel
  induction fuel with
  | zero =>
    intro i gs gs' h
    cases h
    rfl
  | succ f ih =>
    intro i gs gs' h
    unfold evenness_go at h
    cases hget : gs.get? i with
    | none => rw [hget] at h; cases h
    | some g =>
      rw [hget] at h
      simp only at h
      by_cases hodd : g.length % 2 ≠ 0
      · rw [if_pos hodd] at h
        cases hmv : move_item_to_list gs i with
        | error e => rw [hmv] at h; cases h
        | ok gs1 =>
          rw [hmv] at h
          simp only at h
          rw [ih (i + 1) gs1 gs' h, move_item_flatten hmv]
      · rw [if_neg hodd] at h
        exact ih (i + 1) gs gs' h

theorem evenness_pass_flatten {gs gs' : List (List Nat)}
    (h : evenness_pass gs = .ok gs') : gs'.flatten = gs.flatten :=
  evenness_go_flatten gs.length 0 gs gs' h

/-! ## `generate_pairings` and the repair loop: result characterisation -/

/-- The id slots of a pairing list (both slots of every pairing). -/
def pairingIds (ps : List Pairing) : List Nat :=
  ps.flatMap (fun p => [p.id1, p.id2])

theorem pairingIds_append (ps qs : List Pairing) :
    pairingIds (ps ++ qs) = pairingIds ps ++ pairingIds qs := by
  simp [pairingIds]

theorem all_pairs_even {g : List Nat} {cands : List (List (Nat × Nat))}
    (h : all_pairs g = .ok cands) : g.length % 2 = 0 := by
  by_contra hodd
  unfold all_pairs at h
  rw [if_pos hodd] at h
  cases h

theorem all_pairs_ok_elim {g : List Nat} {cands : List (List (Nat × Nat))}
    (h : all_pairs g = .ok cands) : cands = allPairsRec g := by
  have hev := all_pairs_even h
  rw [all_pairs_ok g hev] at h
  exact (Except.ok.inj h).symm

theorem first_valid_eq_find? (db : DB) :
    ∀ cands : List (List (Nat × Nat)),
      first_valid db cands =
        cands.find? (fun c => !(c.any (fun pr => check_for_rematch db pr.1 pr.2))) := by
  intro cands
  induction cands with
  | nil => rfl
  | cons c cs ih =>
    unfold first_valid
    rw [List.find?_cons]
    by_cases hc : c.any (fun pr => check_for_rematch db pr.1 pr.2)
    · simp only [hc, if_true, Bool.not_true]
      exact ih
    · have hc' : (c.any fun pr => check_for_rematch db pr.1 pr.2) = false := by
        rcases Bool.eq_false_iff.mpr hc with h
        exact h
      simp only [hc', if_false, Bool.not_false, Bool.false_eq_true]

theorem first_valid_mem {db : DB} {cands : List (List (Nat × Nat))}
    {c : List (Nat × Nat)} (h : first_valid db cands = some c) : c ∈ cands := by
  rw [first_valid_eq_find? db cands] at h
  exact List.mem_of_find?_eq_some h

theorem first_valid_no_rematch {db : DB} {cands : List (List (Nat × Nat))}
    {c : List (Nat × Nat)} (h : first_valid db cands = some c) :
    ∀ pr ∈ c, check_for_rematch db pr.1 pr.2 = false := by
  rw [first_valid_eq_find? db cands] at h
  have := List.find?_some h
  intro pr hpr
  simp only [Bool.not_eq_eq_eq_not, Bool.not_true, List.any_eq_false] at this
  exact Bool.eq_false_iff.mpr (this pr hpr)

theorem namedPairs_eq_map {db : DB} :
    ∀ {c : List (Nat × Nat)} {named : List Pairing},
      namedPairs db c = some named →
      named = c.map (fun pr =>
        ⟨pr.1, (id_to_name db pr.1).getD "", pr.2, (id_to_name db pr.2).getD ""⟩) := by
  intro c
  induction c with
  | nil => intro named h; cases h; rfl
  | cons pr prs ih =>
    intro named h
    unfold namedPairs at h
    cases h1 : id_to_name db pr.1 with
    | none => rw [h1] at h; cases h
    | some n1 =>
      cases h2 : id_to_name db pr.2 with
      | none => rw [h1, h2] at h; cases h
      | some n2 =>
        rw [h1, h2] at h
        cases hrec : namedPairs db prs with
        | none => rw [hrec] at h; cases h
        | some rest =>
          rw [hrec] at h
          simp only [Option.map_some] at h
          cases h
          rw [List.map_cons, ← ih hrec, h1, h2]
          rfl

theorem pairingIds_map_pairs (db : DB) (c : List (Nat × Nat)) :
    pairingIds (c.map (fun pr =>
      (⟨pr.1, (id_to_name db pr.1).getD "", pr.2, (id_to_name db pr.2).getD ""⟩ : Pairing))) =
    pairFlatten c := by
  induction c with
  | nil => rfl
  | cons pr prs ih =>
    simp only [List.map_cons, pairingIds, List.flatMap_cons, pairFlatten] at ih ⊢
    rw [ih]

theorem pairs_ne_of_nodup :
    ∀ {c : List (Nat × Nat)}, (pairFlatten c).Nodup → ∀ pr ∈ c, pr.1 ≠ pr.2 := by
  intro c
  induction c with
  | nil => intro _ pr hpr; cases hpr
  | cons q qs ih =>
    intro hnd pr hpr
    rw [pairFlatten_cons] at hnd
    rcases List.mem_cons.mp hpr with rfl | hpr'
    · intro he
      have := (List.nodup_cons.mp hnd).1
      exact this (he ▸ List.mem_cons_self _ _)
    · exact ih ((List.nodup_cons.mp (List.nodup_cons.mp hnd).2).2) pr hpr'

/-- Characterisation of a successful `generate_pairings` run: the produced
pairing slots are a permutation of the concatenated groups, every produced
pairing passed the rematch check, each pairing couples two distinct ids
(given distinct inputs), and every pairing is the named form of a matching
pair. -/
theorem generate_pairings_go_ok (db : DB) :
    ∀ (groups : List (List Nat)) (idx : Nat) (ps : List Pairing),
      generate_pairings_go db idx groups = .ok ps →
      (pairingIds ps).Perm groups.flatten ∧
      (∀ p ∈ ps, check_for_rematch db p.id1 p.id2 = false) ∧
      ((groups.flatten).Nodup → ∀ p ∈ ps, p.id1 ≠ p.id2) := by
  intro groups
  induction groups with
  | nil =>
    intro idx ps h
    cases h
    refine ⟨List.Perm.refl _, ?_, ?_⟩
    · intro p hp; cases hp
    · intro _ p hp; cases hp
  | cons g gs ih =>
    intro idx ps h
    unfold generate_pairings_go at h
    cases hap : all_pairs g with
    | error e => rw [hap] at h; cases h
    | ok cands =>
      rw [hap] at h
      simp only at h
      cases hfv : first_valid db cands with
      | none => rw [hfv] at h; cases h
      | some c =>
        rw [hfv] at h
        simp only at h
        cases hnp : namedPairs db c with
        | none => rw [hnp] at h; cases h
        | some named =>
          rw [hnp] at h
          simp only at h
          cases hrec : generate_pairings_go db (idx + 1) gs with
          | error e => rw [hrec] at h; cases h
          | ok rest =>
            rw [hrec] at h
            simp only at h
            cases h
            obtain ⟨ihperm, ihchk, ihne⟩ := ih (idx + 1) rest hrec
            have hev := all_pairs_even hap
            have hcands := all_pairs_ok_elim hap
            have hcmem : c ∈ allPairsRec g := hcands ▸ first_valid_mem hfv
            have hcperm : (pairFlatten c).Perm g :=
              allPairsRec_mem_perm g.length g rfl hev c hcmem
            have hnamed := namedPairs_eq_map hnp
            have hids : pairingIds named = pairFlatten c := by
              rw [hnamed]; exact pairingIds_map_pairs db c
            refine ⟨?_, ?_, ?_⟩
            · rw [pairingIds_append, List.flatten_cons, hids]
              exact hcperm.append ihperm
            · intro p hp
              rcases List.mem_append.mp hp with hp1 | hp2
              · rw [hnamed] at hp1
                obtain ⟨pr, hpr, rfl⟩ := List.mem_map.mp hp1
                exact first_valid_no_rematch hfv pr hpr
              · exact ihchk p hp2
            · intro hnd p hp
              rw [List.flatten_cons] at hnd
              have hgnd : g.Nodup := (List.nodup_append.mp hnd).1
              have hgsnd : (gs.flatten).Nodup := (List.nodup_append.mp hnd).2.1
              rcases List.mem_append.mp hp with hp1 | hp2
              · rw [hnamed] at hp1
                obtain ⟨pr, hpr, rfl⟩ := List.mem_map.mp hp1
                exact pairs_ne_of_nodup (hcperm.nodup_iff.mpr hgnd) pr hpr
              · exact ihne hgsnd p hp2

/-- A successful repair loop run is a successful `generate_pairings` run on
some bucket sequence with the same id multiset (the loop only moves ids
between buckets before retrying). -/
theorem pairing_loop_ok_elim (db : DB) :
    ∀ (N : Nat) (groups : List (List Nat)) (ps : List Pairing),
      groupsMeasure 0 groups = N →
      pairing_loop db groups = .ok ps →
      ∃ groups', groups'.flatten = groups.flatten ∧
        generate_pairings db groups' = .ok ps := by
  intro N
  induction N using Nat.strong_induction_on with
  | _ N ih =>
    intro groups ps hN h
    rw [pairing_loop_unfold db groups] at h
    cases hg : generate_pairings db groups with
    | ok ps0 =>
      rw [hg] at h
      simp only at h
      cases h
      exact ⟨groups, rfl, hg⟩
    | error e =>
      rw [hg] at h
      cases e with
      | valueError => simp only at h; cases h
      | nameMissing => simp only at h; cases h
      | groupFailed i =>
        simp only at h
        by_cases hlen : i + 2 > groups.length
        · rw [if_pos hlen] at h; cases h
        · rw [if_neg hlen] at h
          cases hm1 : move_item_to_list groups i with
          | error e1 => rw [hm1] at h; cases h
          | ok g1 =>
            rw [hm1] at h
            simp only at h
            cases hm2 : move_item_to_list g1 i with
            | error e2 => rw [hm2] at h; cases h
            | ok g2 =>
              rw [hm2] at h
              simp only at h
              have d1 := move_item_measure hm1 0
              have d2 := move_item_measure hm2 0
              obtain ⟨groups', hflat, hgen⟩ :=
                ih (groupsMeasure 0 g2) (by omega) g2 ps rfl h
              refine ⟨groups', ?_, hgen⟩
              rw [hflat, move_item_flatten hm2, move_item_flatten hm1]

/-! ## Bye selection and the `swissPairings` branch dissection -/

theorem bye_step_ok {db : DB} {groups : List (List Nat)}
    {byePairings : List Pairing} {groups1 : List (List Nat)}
    (h : bye_step db groups = .ok (byePairings, groups1)) :
    ∃ b nm, select_player_for_bye db = some b ∧ id_to_name db b = some nm ∧
      byePairings = [⟨b, nm, b, "Give a Bye"⟩] ∧
      groups1 = remove_from_groups groups b := by
  unfold bye_step at h
  cases hs : select_player_for_bye db with
  | none => rw [hs] at h; cases h
  | some b =>
    rw [hs] at h
    simp only at h
    cases hn : id_to_name db b with
    | none => rw [hn] at h; cases h
    | some nm =>
      rw [hn] at h
      simp only [Except.ok.injEq, Prod.mk.injEq] at h
      exact ⟨b, nm, rfl, hn, h.1.symm, h.2.symm⟩

theorem select_player_for_bye_spec {db : DB} {b : Nat}
    (h : select_player_for_bye db = some b) :
    (∃ r ∈ db.players, r.id = b ∧ r.had_bye = false) ∧
    (∀ r ∈ db.players, r.had_bye = false → winsOf db b ≤ winsOf db r.id) := by
  unfold select_player_for_bye at h
  cases hh : (sortRows (fun a b => decide (winsOf db a.id ≤ winsOf db b.id))
      (db.players.filter (fun p => p.had_bye == false))).head? with
  | none => rw [hh] at h; cases h
  | some s =>
    rw [hh] at h
    have hsb : s.id = b := by simpa using h
    have hsmem : s ∈ db.players.filter (fun p => p.had_bye == false) :=
      (sortRows_perm _ _).mem_iff.mp (List.mem_of_mem_head? hh)
    have hsp : s ∈ db.players := List.mem_of_mem_filter hsmem
    have hsf : s.had_bye = false := by
      have := List.of_mem_filter hsmem
      simpa using this
    constructor
    · exact ⟨s, hsp, hsb, hsf⟩
    · intro r hr hrf
      have hrmem : r ∈ db.players.filter (fun p => p.had_bye == false) :=
        List.mem_filter.mpr ⟨hr, by simp [hrf]⟩
      have htot : ∀ a c : PlayerRow,
          (decide (winsOf db a.id ≤ winsOf db c.id) ||
            decide (winsOf db c.id ≤ winsOf db a.id)) = true := by
        intro a c
        rcases Nat.le_total (winsOf db a.id) (winsOf db c.id) with hle | hle <;>
          simp [hle]
      have htrans : ∀ a c d : PlayerRow,
          decide (winsOf db a.id ≤ winsOf db c.id) = true →
          decide (winsOf db c.id ≤ winsOf db d.id) = true →
          decide (winsOf db a.id ≤ winsOf db d.id) = true := by
        intro a c d h1 h2
        simp only [decide_eq_true_eq] at h1 h2 ⊢
        omega
      obtain ⟨t, ht⟩ : ∃ t, sortRows
          (fun a b => decide (winsOf db a.id ≤ winsOf db b.id))
          (db.players.filter (fun p => p.had_bye == false)) = s :: t := by
        cases hsort : sortRows (fun a b => decide (winsOf db a.id ≤ winsOf db b.id))
            (db.players.filter (fun p => p.had_bye == false)) with
        | nil => rw [hsort] at hh; cases hh
        | cons x xs =>
          rw [hsort] at hh
          exact ⟨xs, by rw [Option.some.inj hh]⟩
      have := sortRows_head_le _ htot htrans _ s t ht r hrmem
      rcases this with he | hle
      · rw [he, ← hsb]
      · rw [← hsb]
        simpa using hle

/-- Dissection of a successful non-first-round `swissPairings` run into its
pipeline stages. -/
theorem swissPairings_ok_main {db : DB} {shuf : List Standing} {ps : List Pairing}
    (hsum : (matchCounts db).sum ≠ 0)
    (hok : swissPairings db shuf = .ok ps) :
    ∃ byePairings groups1 groups2 res,
      (((playerStandings db).length % 2 ≠ 0 ∧
          bye_step db (winGroups db) = .ok (byePairings, groups1)) ∨
        ((playerStandings db).length % 2 = 0 ∧ byePairings = [] ∧
          groups1 = winGroups db)) ∧
      evenness_pass groups1 = .ok groups2 ∧
      pairing_loop db groups2 = .ok res ∧
      ps = byePairings ++ res := by
  unfold swissPairings at hok
  rw [if_neg (by simpa using hsum)] at hok
  by_cases h2 : (matchCounts db).max?.getD 0 ≠ (matchCounts db).min?.getD 0
  · rw [if_pos h2] at hok; cases hok
  · rw [if_neg h2] at hok
    by_cases h3 : (((winGroups db).getLastD []).length == 1) = true
    · rw [if_pos h3] at hok; cases hok
    · rw [if_neg h3] at hok
      cases hb : (if (playerStandings db).length % 2 ≠ 0
          then bye_step db (winGroups db)
          else .ok ([], winGroups db)) with
      | error e => rw [hb] at hok; cases hok
      | ok pr =>
        obtain ⟨byePairings, groups1⟩ := pr
        rw [hb] at hok
        simp only at hok
        cases hev : evenness_pass groups1 with
        | error e => rw [hev] at hok; cases hok
        | ok groups2 =>
          rw [hev] at hok
          simp only at hok
          cases hpl : pairing_loop db groups2 with
          | error e => rw [hpl] at hok; cases hok
          | ok res =>
            rw [hpl] at hok
            simp only [Except.ok.injEq] at hok
            refine ⟨byePairings, groups1, groups2, res, ?_, hev, hpl, hok.symm⟩
            by_cases hodd : (playerStandings db).length % 2 ≠ 0
            · rw [if_pos hodd] at hb
              exact Or.inl ⟨hodd, hb⟩
            · rw [if_neg hodd] at hb
              have := Except.ok.inj hb
              obtain ⟨e1, e2⟩ := Prod.mk.injEq .. ▸ this
              exact Or.inr ⟨by omega, e1.symm, e2.symm⟩

/-! ## First-round pairing lemmas -/

theorem consecutive_pairings_ids :
    ∀ (n : Nat) (l : List Standing), l.length = n → l.length % 2 = 0 →
      pairingIds (consecutive_pairings l) = l.map (fun s => s.id) := by
  intro n
  induction n using Nat.strong_induction_on with
  | _ n ih =>
    intro l hn h
    match l with
    | [] => rfl
    | [a] => simp at h
    | a :: b :: t =>
      have ht : t.length = n - 2 := by simp at hn; omega
      have hte : t.length % 2 = 0 := by simp at h; omega
      show pairingIds (⟨a.id, a.name, b.id, b.name⟩ :: consecutive_pairings t) = _
      simp only [pairingIds, List.flatMap_cons, List.map_cons]
      rw [show (t.map (fun s => s.id)) =
        pairingIds (consecutive_pairings t) from
          (ih (n - 2) (by simp at hn; omega) t ht hte).symm]
      rfl

theorem consecutive_pairings_ne :
    ∀ (n : Nat) (l : List Standing), l.length = n → l.length % 2 = 0 →
      (l.map (fun s => s.id)).Nodup →
      ∀ p ∈ consecutive_pairings l, p.id1 ≠ p.id2 := by
  intro n
  induction n using Nat.strong_induction_on with
  | _ n ih =>
    intro l hn h hnd p hp
    match l with
    | [] => cases hp
    | [a] => simp at h
    | a :: b :: t =>
      have hmem : p ∈ (⟨a.id, a.name, b.id, b.name⟩ : Pairing) ::
          consecutive_pairings t := hp
      rcases List.mem_cons.mp hmem with rfl | hp'
      · show a.id ≠ b.id
        simp only [List.map_cons, List.nodup_cons] at hnd
        intro he
        exact hnd.1 (he ▸ List.mem_cons_self _ _)
      · refine ih (n - 2) (by simp at hn; omega) t (by simp at hn; omega)
          (by simp at h; omega) ?_ p hp'
        simp only [List.map_cons, List.nodup_cons] at hnd
        exact hnd.2.2

/-- `countP` of "pairing contains this id" equals the id-slot count, for
pairing lists without self-pairs. -/
theorem countP_eq_count_pairingIds (pid : Nat) :
    ∀ ps : List Pairing, (∀ p ∈ ps, p.id1 ≠ p.id2) →
      ps.countP (fun p => p.id1 == pid || p.id2 == pid) =
        (pairingIds ps).count pid := by
  intro ps
  induction ps with
  | nil => intro _; rfl
  | cons p rest ih =>
    intro hne
    have hpne : p.id1 ≠ p.id2 := hne p (List.mem_cons_self _ _)
    have hrest := ih (fun q hq => hne q (List.mem_cons_of_mem p hq))
    rw [List.countP_cons]
    show _ = ((p.id1 :: p.id2 :: pairingIds rest).count pid)
    rw [List.count_cons, List.count_cons, hrest]
    by_cases h1 : p.id1 = pid
    · have h2 : ¬(p.id2 = pid) := fun hc => hpne (h1.trans hc.symm)
      simp [h1, h2]
    · by_cases h2 : p.id2 = pid
      · simp [h1, h2]
      · simp [h1, h2]

/-! ## Coverage arguments for claim C1 -/

theorem coverage_no_bye {S : List Nat} {res : List Pairing}
    (hnd : S.Nodup) (hperm : (pairingIds res).Perm S)
    (hne : ∀ p ∈ res, p.id1 ≠ p.id2) :
    (∀ pid, pid ∈ S ↔ ∃ p ∈ res, p.id1 = pid ∨ p.id2 = pid) ∧
    (∀ pid ∈ S, res.countP (fun p => p.id1 == pid || p.id2 == pid) = 1) := by
  have hcount : ∀ pid, res.countP (fun p => p.id1 == pid || p.id2 == pid) =
      S.count pid := by
    intro pid
    rw [countP_eq_count_pairingIds pid res hne, hperm.count_eq]
  constructor
  · intro pid
    constructor
    · intro hmem
      have h1 : 0 < res.countP (fun p => p.id1 == pid || p.id2 == pid) := by
        rw [hcount, List.count_eq_one_of_mem hnd hmem]
        omega
      obtain ⟨p, hp, hpred⟩ := List.countP_pos.mp h1
      refine ⟨p, hp, ?_⟩
      simpa using hpred
    · intro ⟨p, hp, hor⟩
      have hpin : pid ∈ pairingIds res := by
        simp only [pairingIds, List.mem_flatMap]
        refine ⟨p, hp, ?_⟩
        rcases hor with h | h <;> simp [h]
      exact hperm.mem_iff.mp hpin
  · intro pid hmem
    rw [hcount, List.count_eq_one_of_mem hnd hmem]

theorem coverage_with_bye {S : List Nat} {b : Nat} {nm bn : String}
    {res : List Pairing}
    (hnd : S.Nodup) (hb : b ∈ S)
    (hperm : (pairingIds res).Perm (S.erase b))
    (hne : ∀ p ∈ res, p.id1 ≠ p.id2) :
    (∀ pid, pid ∈ S ↔
      ∃ p ∈ (⟨b, nm, b, bn⟩ : Pairing) :: res, p.id1 = pid ∨ p.id2 = pid) ∧
    (∀ pid ∈ S, ((⟨b, nm, b, bn⟩ : Pairing) :: res).countP
      (fun p => p.id1 == pid || p.id2 == pid) = 1) := by
  have hndE : (S.erase b).Nodup := (List.erase_sublist b S).nodup hnd
  have hcount : ∀ pid, res.countP (fun p => p.id1 == pid || p.id2 == pid) =
      (S.erase b).count pid := by
    intro pid
    rw [countP_eq_count_pairingIds pid res hne, hperm.count_eq]
  constructor
  · intro pid
    constructor
    · intro hmem
      by_cases hpb : pid = b
      · exact ⟨_, List.mem_cons_self _ _, Or.inl hpb.symm⟩
      · have hmemE : pid ∈ S.erase b :=
          (List.mem_erase_of_ne hpb).mpr hmem
        have h1 : 0 < res.countP (fun p => p.id1 == pid || p.id2 == pid) := by
          rw [hcount, List.count_eq_one_of_mem hndE hmemE]
          omega
        obtain ⟨p, hp, hpred⟩ := List.countP_pos.mp h1
        exact ⟨p, List.mem_cons_of_mem _ hp, by simpa using hpred⟩
    · intro ⟨p, hp, hor⟩
      rcases List.mem_cons.mp hp with rfl | hp'
      · rcases hor with h | h
        · rw [← h]; exact hb
        · rw [← h]; exact hb
      · have hpin : pid ∈ pairingIds res := by
          simp only [pairingIds, List.mem_flatMap]
          refine ⟨p, hp', ?_⟩
          rcases hor with h | h <;> simp [h]
        exact (List.erase_sublist b S).mem (hperm.mem_iff.mp hpin)
  · intro pid hmem
    rw [List.countP_cons]
    by_cases hpb : pid = b
    · subst hpb
      have hz : res.countP (fun p => p.id1 == pid || p.id2 == pid) = 0 := by
        rw [hcount, List.count_erase_self,
          List.count_eq_one_of_mem hnd hmem]
      simp [hz]
    · have hpb' : ¬(b = pid) := fun hc => hpb hc.symm
      have h1 : res.countP (fun p => p.id1 == pid || p.id2 == pid) = 1 := by
        rw [hcount, List.count_erase_of_ne hpb,
          List.count_eq_one_of_mem hnd hmem]
      simp [h1, hpb']

/-- C1: on every input for which `swissPairings` returns a pairing list
(including the randomly shuffled first round, quantified over all
permutations `shuf` of the standings), every player id in the standings
appears in exactly one pairing, the returned pairings use only standings
ids, and any self-paired entry is the bye pairing (marked `Give a Bye`), in
which the bye player appears once. -/
theorem c1_swissPairings_coverage (db : DB) (shuf : List Standing)
    (ps : List Pairing)
    (hids : (db.players.map (fun r => r.id)).Nodup)
    (hshuf : shuf.Perm (playerStandings db))
    (hok : swissPairings db shuf = .ok ps) :
    (∀ pid, pid ∈ (playerStandings db).map (fun s => s.id) ↔
        ∃ p ∈ ps, p.id1 = pid ∨ p.id2 = pid) ∧
    (∀ pid ∈ (playerStandings db).map (fun s => s.id),
        ps.countP (fun p => p.id1 == pid || p.id2 == pid) = 1) ∧
    (∀ p ∈ ps, p.id1 = p.id2 → p.name2 = "Give a Bye") := by
  have hSperm := playerStandings_ids_perm db
  have hSnd : ((playerStandings db).map (fun s => s.id)).Nodup :=
    hSperm.nodup_iff.mpr hids
  by_cases hsum : (matchCounts db).sum = 0
  · -- first round: random pairing over the shuffled standings
    unfold swissPairings at hok
    rw [if_pos (by simpa using hsum)] at hok
    have hps : ps = random_pairing shuf := (Except.ok.inj hok).symm
    have hshufids : (shuf.map (fun s => s.id)).Perm
        ((playerStandings db).map (fun s => s.id)) := hshuf.map _
    have hshufnd : (shuf.map (fun s => s.id)).Nodup :=
      hshufids.nodup_iff.mpr hSnd
    subst hps
    by_cases hodd : shuf.length % 2 ≠ 0
    · match shuf, hodd, hshufids, hshufnd with
      | [], hodd, _, _ => simp at hodd
      | h :: t, hodd, hshufids, hshufnd =>
        have hrp : random_pairing (h :: t) =
            ⟨h.id, h.name, h.id, "Give a Bye"⟩ :: consecutive_pairings t := by
          unfold random_pairing
          rw [if_pos hodd]
        rw [hrp]
        have htlen : t.length % 2 = 0 := by simp at hodd; omega
        have htnd : (t.map (fun s => s.id)).Nodup := by
          simp only [List.map_cons, List.nodup_cons] at hshufnd
          exact hshufnd.2
        have hne := consecutive_pairings_ne t.length t rfl htlen htnd
        have hperm : (pairingIds (consecutive_pairings t)).Perm
            (((playerStandings db).map (fun s => s.id)).erase h.id) := by
          rw [consecutive_pairings_ids t.length t rfl htlen]
          have h2 := hshufids.erase h.id
          rw [List.map_cons, List.erase_cons_head] at h2
          exact h2
        have hb : h.id ∈ (playerStandings db).map (fun s => s.id) :=
          hshufids.mem_iff.mp (by simp)
        obtain ⟨hc1, hc2⟩ := coverage_with_bye hSnd hb hperm hne
        refine ⟨hc1, hc2, ?_⟩
        intro p hp hpe
        rcases List.mem_cons.mp hp with rfl | hp'
        · rfl
        · exact absurd hpe (hne p hp')
    · have hlen : shuf.length % 2 = 0 := by omega
      have hrp : random_pairing shuf = consecutive_pairings shuf := by
        unfold random_pairing
        rw [if_neg hodd]
      rw [hrp]
      have hne := consecutive_pairings_ne shuf.length shuf rfl hlen hshufnd
      have hperm : (pairingIds (consecutive_pairings shuf)).Perm
          ((playerStandings db).map (fun s => s.id)) := by
        rw [consecutive_pairings_ids shuf.length shuf rfl hlen]
        exact hshufids
      obtain ⟨hc1, hc2⟩ := coverage_no_bye hSnd hperm hne
      refine ⟨hc1, hc2, ?_⟩
      intro p hp he
      exact absurd he (hne p hp)
  · -- later rounds
    obtain ⟨byePairings, groups1, groups2, res, hbye, hev, hpl, hps⟩ :=
      swissPairings_ok_main hsum hok
    obtain ⟨groups', hflat', hgen⟩ :=
      pairing_loop_ok_elim db (groupsMeasure 0 groups2) groups2 res rfl hpl
    obtain ⟨hperm_res, hchk, hne'⟩ := generate_pairings_go_ok db groups' 0 res hgen
    have hflat2 : groups2.flatten = groups1.flatten := evenness_pass_flatten hev
    have hWG : ((winGroups db).flatten).Perm (db.players.map (fun p => p.id)) :=
      winGroups_flatten_perm db
    rcases hbye with ⟨hodd, hbs⟩ | ⟨heven, hbnil, hgr⟩
    · obtain ⟨b, nm, hsel, hname, hbp, hg1⟩ := bye_step_ok hbs
      obtain ⟨⟨r, hr, hrid, hrb⟩, _⟩ := select_player_for_bye_spec hsel
      have hbmem : b ∈ db.players.map (fun p => p.id) :=
        List.mem_map.mpr ⟨r, hr, hrid⟩
      have hflat1 : groups1.flatten = ((winGroups db).flatten).erase b := by
        rw [hg1, remove_from_groups_flatten]
      have hperm : (pairingIds res).Perm
          ((((playerStandings db).map (fun s => s.id))).erase b) := by
        rw [hflat', hflat2, hflat1] at hperm_res
        refine hperm_res.trans ?_
        exact (hWG.trans hSperm.symm).erase b
      have hnd' : (groups'.flatten).Nodup := by
        rw [hflat', hflat2, hflat1]
        exact ((List.erase_sublist b _).nodup (hWG.nodup_iff.mpr hids))
      have hbS : b ∈ (playerStandings db).map (fun s => s.id) :=
        hSperm.mem_iff.mpr hbmem
      obtain ⟨hc1, hc2⟩ := coverage_with_bye hSnd hbS hperm (hne' hnd')
      rw [hps, hbp]
      refine ⟨hc1, hc2, ?_⟩
      intro p hp _
      rcases List.mem_cons.mp hp with rfl | hp'
      · rfl
      · exact absurd (by assumption) (hne' hnd' p hp')
    · have hflat1 : groups1.flatten = (winGroups db).flatten := by rw [hgr]
      have hperm : (pairingIds res).Perm
          ((playerStandings db).map (fun s => s.id)) := by
        rw [hflat', hflat2, hflat1] at hperm_res
        exact hperm_res.trans (hWG.trans hSperm.symm)
      have hnd' : (groups'.flatten).Nodup := by
        rw [hflat', hflat2, hflat1]
        exact hWG.nodup_iff.mpr hids
      obtain ⟨hc1, hc2⟩ := coverage_no_bye hSnd hperm (hne' hnd')
      rw [hps, hbnil, List.nil_append]
      refine ⟨hc1, hc2, ?_⟩
      intro p hp he
      exact absurd he (hne' hnd' p hp)

/-- Witness for C1: a concrete three-player second round with a bye. -/
theorem c1_swissPairings_coverage_witness :
    (∀ pid, pid ∈ (playerStandings
        ⟨[⟨1, "A", false⟩, ⟨2, "B", false⟩, ⟨3, "C", true⟩],
         [(1, some 2), (3, none)]⟩).map (fun s => s.id) ↔
      ∃ p ∈ [(⟨2, "B", 2, "Give a Bye"⟩ : Pairing), ⟨1, "A", 3, "C"⟩],
        p.id1 = pid ∨ p.id2 = pid) ∧
    (∀ pid ∈ (playerStandings
        ⟨[⟨1, "A", false⟩, ⟨2, "B", false⟩, ⟨3, "C", true⟩],
         [(1, some 2), (3, none)]⟩).map (fun s => s.id),
      ([(⟨2, "B", 2, "Give a Bye"⟩ : Pairing), ⟨1, "A", 3, "C"⟩].countP
        (fun p => p.id1 == pid || p.id2 == pid)) = 1) := by
  have h := c1_swissPairings_coverage
    ⟨[⟨1, "A", false⟩, ⟨2, "B", false⟩, ⟨3, "C", true⟩], [(1, some 2), (3, none)]⟩
    (playerStandings
      ⟨[⟨1, "A", false⟩, ⟨2, "B", false⟩, ⟨3, "C", true⟩], [(1, some 2), (3, none)]⟩)
    [⟨2, "B", 2, "Give a Bye"⟩, ⟨1, "A", 3, "C"⟩]
    (by decide) (List.Perm.refl _) (by decide)
  exact ⟨h.1, h.2.1⟩

/-! ## Claim C2 -/

/-- A successful `generate_pairings` run accepts, for each bucket, exactly
the first candidate in `all_pairs` order whose pairs are all rematch-free,
and returns their named concatenation in bucket order. -/
theorem generate_pairings_go_accepts (db : DB) :
    ∀ (groups : List (List Nat)) (idx : Nat) (ps : List Pairing),
      generate_pairings_go db idx groups = .ok ps →
      ∃ cs : List (List (Nat × Nat)),
        cs.length = groups.length ∧
        (∀ k, k < groups.length →
          ∃ cands, all_pairs (groups.getD k []) = .ok cands ∧
            cands.find? (fun c =>
              !(c.any (fun pr => check_for_rematch db pr.1 pr.2))) =
              some (cs.getD k [])) ∧
        ps = cs.flatMap (fun c => c.map (fun pr =>
          (⟨pr.1, (id_to_name db pr.1).getD "", pr.2,
            (id_to_name db pr.2).getD ""⟩ : Pairing))) := by
  intro groups
  induction groups with
  | nil =>
    intro idx ps h
    cases h
    exact ⟨[], rfl, fun k hk => absurd hk (by simp), rfl⟩
  | cons g gs ih =>
    intro idx ps h
    unfold generate_pairings_go at h
    cases hap : all_pairs g with
    | error e => rw [hap] at h; cases h
    | ok cands =>
      rw [hap] at h
      simp only at h
      cases hfv : first_valid db cands with
      | none => rw [hfv] at h; cases h
      | some c =>
        rw [hfv] at h
        simp only at h
        cases hnp : namedPairs db c with
        | none => rw [hnp] at h; cases h
        | some named =>
          rw [hnp] at h
          simp only at h
          cases hrec : generate_pairings_go db (idx + 1) gs with
          | error e => rw [hrec] at h; cases h
          | ok rest =>
            rw [hrec] at h
            simp only at h
            cases h
            obtain ⟨cs', hlen', haccept', hps'⟩ := ih (idx + 1) rest hrec
            refine ⟨c :: cs', by simp [hlen'], ?_, ?_⟩
            · intro k hk
              match k with
              | 0 =>
                refine ⟨cands, hap, ?_⟩
                rw [← first_valid_eq_find? db cands]
                exact hfv
              | k' + 1 =>
                have hk' : k' < gs.length := by simpa using hk
                obtain ⟨cands', h1, h2⟩ := haccept' k' hk'
                exact ⟨cands', h1, h2⟩
            · rw [List.flatMap_cons, ← hps', ← namedPairs_eq_map hnp]

/-- C2: (1) in every pairing list `swissPairings` returns after the first
round, each pairing other than the self-paired bye relates two players whose
`check_for_rematch` is false on the current state; (2) a successful
`generate_pairings` run accepts, within each bucket, exactly the first
candidate matching in the enumerator's order whose pairs are all
rematch-free. -/
theorem c2_rematch_free_and_first_accepted :
    (∀ (db : DB) (shuf : List Standing) (ps : List Pairing),
      (matchCounts db).sum ≠ 0 →
      swissPairings db shuf = .ok ps →
      ∀ p ∈ ps, p.id1 = p.id2 ∨ check_for_rematch db p.id1 p.id2 = false) ∧
    (∀ (db : DB) (groups : List (List Nat)) (ps : List Pairing),
      generate_pairings db groups = .ok ps →
      ∃ cs : List (List (Nat × Nat)),
        cs.length = groups.length ∧
        (∀ k, k < groups.length →
          ∃ cands, all_pairs (groups.getD k []) = .ok cands ∧
            cands.find? (fun c =>
              !(c.any (fun pr => check_for_rematch db pr.1 pr.2))) =
              some (cs.getD k [])) ∧
        ps = cs.flatMap (fun c => c.map (fun pr =>
          (⟨pr.1, (id_to_name db pr.1).getD "", pr.2,
            (id_to_name db pr.2).getD ""⟩ : Pairing)))) := by
  constructor
  · intro db shuf ps hsum hok p hp
    obtain ⟨byePairings, groups1, groups2, res, hbye, hev, hpl, hps⟩ :=
      swissPairings_ok_main hsum hok
    obtain ⟨groups', _, hgen⟩ :=
      pairing_loop_ok_elim db (groupsMeasure 0 groups2) groups2 res rfl hpl
    obtain ⟨_, hchk, _⟩ := generate_pairings_go_ok db groups' 0 res hgen
    rw [hps] at hp
    rcases List.mem_append.mp hp with hp1 | hp2
    · rcases hbye with ⟨_, hbs⟩ | ⟨_, hbnil, _⟩
      · obtain ⟨b, nm, _, _, hbp, _⟩ := bye_step_ok hbs
        rw [hbp] at hp1
        rcases List.mem_cons.mp hp1 with rfl | hc
        · exact Or.inl rfl
        · cases hc
      · rw [hbnil] at hp1; cases hp1
    · exact Or.inr (hchk p hp2)
  · intro db groups ps h
    exact generate_pairings_go_accepts db groups 0 ps h

/-- Witness for C2 at concrete states: a three-player second round for the
rematch-freedom part and a single bucket for the first-accepted part. -/
theorem c2_rematch_free_and_first_accepted_witness :
    (∀ p ∈ [(⟨2, "B", 2, "Give a Bye"⟩ : Pairing), ⟨1, "A", 3, "C"⟩],
      p.id1 = p.id2 ∨
      check_for_rematch
        ⟨[⟨1, "A", false⟩, ⟨2, "B", false⟩, ⟨3, "C", true⟩],
         [(1, some 2), (3, none)]⟩ p.id1 p.id2 = false) ∧
    (∃ cs : List (List (Nat × Nat)),
      cs.length = ([[3, 4]] : List (List Nat)).length ∧
      (∀ k, k < ([[3, 4]] : List (List Nat)).length →
        ∃ cands, all_pairs (([[3, 4]] : List (List Nat)).getD k []) = .ok cands ∧
          cands.find? (fun c => !(c.any (fun pr => check_for_rematch
            ⟨[⟨1, "A", false⟩, ⟨2, "B", false⟩, ⟨3, "C", false⟩, ⟨4, "D", false⟩],
             [(1, some 2)]⟩ pr.1 pr.2))) = some (cs.getD k [])) ∧
      [(⟨3, "C", 4, "D"⟩ : Pairing)] = cs.flatMap (fun c => c.map (fun pr =>
        (⟨pr.1, (id_to_name
          ⟨[⟨1, "A", false⟩, ⟨2, "B", false⟩, ⟨3, "C", false⟩, ⟨4, "D", false⟩],
           [(1, some 2)]⟩ pr.1).getD "", pr.2, (id_to_name
          ⟨[⟨1, "A", false⟩, ⟨2, "B", false⟩, ⟨3, "C", false⟩, ⟨4, "D", false⟩],
           [(1, some 2)]⟩ pr.2).getD ""⟩ : Pairing)))) := by
  constructor
  · exact c2_rematch_free_and_first_accepted.1
      ⟨[⟨1, "A", false⟩, ⟨2, "B", false⟩, ⟨3, "C", true⟩], [(1, some 2), (3, none)]⟩
      (playerStandings
        ⟨[⟨1, "A", false⟩, ⟨2, "B", false⟩, ⟨3, "C", true⟩], [(1, some 2), (3, none)]⟩)
      [⟨2, "B", 2, "Give a Bye"⟩, ⟨1, "A", 3, "C"⟩]
      (by decide) (by decide)
  · exact c2_rematch_free_and_first_accepted.2
      ⟨[⟨1, "A", false⟩, ⟨2, "B", false⟩, ⟨3, "C", false⟩, ⟨4, "D", false⟩],
       [(1, some 2)]⟩
      [[3, 4]] [⟨3, "C", 4, "D"⟩] (by decide)

/-! ## Claim C7 -/

theorem getLastD_range_map (f : Nat → List Nat) (k : Nat) :
    ((List.range (k + 1)).map f).getLastD [] = f k := by
  rw [List.range_succ, List.map_append]
  simp

/-- The last win group is the bucket of players with the maximal win count. -/
theorem winGroups_getLast (db : DB) :
    (winGroups db).getLastD [] =
      (db.players.filter (fun p => winsOf db p.id == maxNumWins db)).map
        (fun p => p.id) := by
  unfold winGroups win_groups_of
  exact getLastD_range_map _ _

/-- C7: on a post-first-round, complete-round input whose highest-win bucket
holds exactly one id (exactly one player has the maximal win count), the
engine reports the terminal tournament-decided condition and produces no
pairings. -/
theorem c7_tournament_decided (db : DB) (shuf : List Standing)
    (hsum : (matchCounts db).sum ≠ 0)
    (hcomplete : (matchCounts db).max?.getD 0 = (matchCounts db).min?.getD 0)
    (htop : (db.players.filter
      (fun p => winsOf db p.id == maxNumWins db)).length = 1) :
    swissPairings db shuf = .error .tournamentDecided := by
  have hlen : ((winGroups db).getLastD []).length = 1 := by
    rw [winGroups_getLast, List.length_map]
    exact htop
  unfold swissPairings
  rw [if_neg (by simpa using hsum), if_neg (fun hc => hc hcomplete),
    if_pos (by rw [hlen]; rfl)]

/-- Witness for C7 at the spec's decided scenario: standings
`[(1,A,3,3),(2,B,1,3),(3,C,1,3),(4,D,1,3)]`. -/
theorem c7_tournament_decided_witness :
    swissPairings
      ⟨[⟨1, "A", false⟩, ⟨2, "B", false⟩, ⟨3, "C", false⟩, ⟨4, "D", false⟩],
       [(1, some 2), (1, some 3), (1, some 4), (2, some 3), (3, some 4),
        (4, some 2)]⟩ [] = .error .tournamentDecided :=
  c7_tournament_decided
    ⟨[⟨1, "A", false⟩, ⟨2, "B", false⟩, ⟨3, "C", false⟩, ⟨4, "D", false⟩],
     [(1, some 2), (1, some 3), (1, some 4), (2, some 3), (3, some 4),
      (4, some 2)]⟩ [] (by decide) (by decide) (by decide)

/-! ## Claim C5 -/

/-- The standings have one row per player. -/
theorem playerStandings_length (db : DB) :
    (playerStandings db).length = db.players.length := by
  rw [(playerStandings_perm db).length_eq]
  simp [rawStandings]

/-- C5: when some player is still bye-eligible, `select_player_for_bye`
returns an eligible player with minimal win count among the eligible; when
every player has had a bye it returns no row (the `fetchone()` result is
`None`), and the engine surfaces this as the `NoEligibleByeCandidate`
failure rather than handling it silently. -/
theorem c5_bye_selection (db : DB) :
    (∀ b, select_player_for_bye db = some b →
      (∃ r ∈ db.players, r.id = b ∧ r.had_bye = false) ∧
      (∀ r ∈ db.players, r.had_bye = false → winsOf db b ≤ winsOf db r.id)) ∧
    ((∀ r ∈ db.players, r.had_bye = true) → select_player_for_bye db = none) ∧
    (∀ shuf, (matchCounts db).sum ≠ 0 →
      (matchCounts db).max?.getD 0 = (matchCounts db).min?.getD 0 →
      ((winGroups db).getLastD []).length ≠ 1 →
      (playerStandings db).length % 2 = 1 →
      (∀ r ∈ db.players, r.had_bye = true) →
      swissPairings db shuf = .error .noEligibleByeCandidate) := by
  have hall : (∀ r ∈ db.players, r.had_bye = true) →
      select_player_for_bye db = none := by
    intro hb
    unfold select_player_for_bye
    have hfilter : db.players.filter (fun p => p.had_bye == false) = [] := by
      rw [List.filter_eq_nil_iff]
      intro r hr
      simp [hb r hr]
    rw [hfilter]
    rfl
  refine ⟨fun b h => select_player_for_bye_spec h, hall, ?_⟩
  intro shuf hsum hcomplete htop hodd hb
  unfold swissPairings
  rw [if_neg (by simpa using hsum), if_neg (fun hc => hc hcomplete),
    if_neg (by simpa using htop), if_pos (by omega)]
  unfold bye_step
  rw [hall hb]

/-- Witness for C5: a two-player state where player 2 (zero wins) is picked,
and an all-byes-taken state that fails. -/
theorem c5_bye_selection_witness :
    ((∃ r ∈ [(⟨1, "A", false⟩ : PlayerRow), ⟨2, "B", false⟩, ⟨3, "C", true⟩],
        r.id = 2 ∧ r.had_bye = false) ∧
      (∀ r ∈ [(⟨1, "A", false⟩ : PlayerRow), ⟨2, "B", false⟩, ⟨3, "C", true⟩],
        r.had_bye = false →
        winsOf ⟨[⟨1, "A", false⟩, ⟨2, "B", false⟩, ⟨3, "C", true⟩],
          [(1, some 2), (3, none)]⟩ 2 ≤
        winsOf ⟨[⟨1, "A", false⟩, ⟨2, "B", false⟩, ⟨3, "C", true⟩],
          [(1, some 2), (3, none)]⟩ r.id)) ∧
    swissPairings ⟨[⟨1, "A", true⟩, ⟨2, "B", true⟩, ⟨3, "C", true⟩],
      [(1, some 2), (3, none)]⟩ [] = .error .noEligibleByeCandidate := by
  constructor
  · exact (c5_bye_selection
      ⟨[⟨1, "A", false⟩, ⟨2, "B", false⟩, ⟨3, "C", true⟩],
       [(1, some 2), (3, none)]⟩).1 2 (by decide)
  · exact (c5_bye_selection
      ⟨[⟨1, "A", true⟩, ⟨2, "B", true⟩, ⟨3, "C", true⟩],
       [(1, some 2), (3, none)]⟩).2.2 [] (by decide) (by decide) (by decide)
      (by decide) (by decide)

/-! ## Claim C6 -/

theorem find?_id_unique :
    ∀ {players : List PlayerRow}, (players.map (fun r => r.id)).Nodup →
      ∀ {r : PlayerRow}, r ∈ players →
        players.find? (fun p => p.id == r.id) = some r := by
  intro players
  induction players with
  | nil => intro _ r hr; cases hr
  | cons x xs ih =>
    intro hnd r hr
    simp only [List.map_cons, List.nodup_cons] at hnd
    rcases List.mem_cons.mp hr with rfl | hr'
    · simp [List.find?_cons]
    · have hxne : (x.id == r.id) = false := by
        have hmem : r.id ∈ xs.map (fun p => p.id) := List.mem_map.mpr ⟨r, hr', rfl⟩
        simp only [beq_eq_false_iff_ne, ne_eq]
        intro hc
        exact hnd.1 (hc ▸ hmem)
      simp only [List.find?_cons, hxne]
      exact ih hnd.2 hr'

/-- Counterexample for C6 as stated: on a concrete three-player state the
pairing computation succeeds and assigns the bye to player 2, yet the
database state after the call still records `had_bye = false` for player 2 —
the pairing computation performs no update (all its statements are
`SELECT`s); the flag is only set later by `reportMatch`. -/
theorem c6_counterexample :
    (swissPairingsRun
      ⟨[⟨1, "A", false⟩, ⟨2, "B", false⟩, ⟨3, "C", true⟩],
       [(1, some 2), (3, none)]⟩
      (playerStandings
        ⟨[⟨1, "A", false⟩, ⟨2, "B", false⟩, ⟨3, "C", true⟩],
         [(1, some 2), (3, none)]⟩)).1 =
      .ok [⟨2, "B", 2, "Give a Bye"⟩, ⟨1, "A", 3, "C"⟩] ∧
    hadByeOf (swissPairingsRun
      ⟨[⟨1, "A", false⟩, ⟨2, "B", false⟩, ⟨3, "C", true⟩],
       [(1, some 2), (3, none)]⟩
      (playerStandings
        ⟨[⟨1, "A", false⟩, ⟨2, "B", false⟩, ⟨3, "C", true⟩],
         [(1, some 2), (3, none)]⟩)).2 2 = some false := by
  decide

/-- C6 as amended: on a successful odd-field pairing computation the engine
removes the selected bye player from their win group (the matching runs on
`remove_from_groups (winGroups db) b`) and appends a self-paired bye pairing
(at the head of the result), but it does not record `hadBye` — the state
after the call is unchanged, the bye player's flag is still false, and the
flag becomes true only when the bye match is subsequently reported via
`reportMatch`. -/
theorem c6_bye_assignment_amended (db : DB) (shuf : List Standing)
    (ps : List Pairing)
    (hids : (db.players.map (fun r => r.id)).Nodup)
    (hsum : (matchCounts db).sum ≠ 0)
    (hodd : (playerStandings db).length % 2 = 1)
    (hok : swissPairings db shuf = .ok ps) :
    ∃ b nm res groups2,
      select_player_for_bye db = some b ∧
      hadByeOf db b = some false ∧
      ps = ⟨b, nm, b, "Give a Bye"⟩ :: res ∧
      evenness_pass (remove_from_groups (winGroups db) b) = .ok groups2 ∧
      pairing_loop db groups2 = .ok res ∧
      (swissPairingsRun db shuf).2 = db ∧
      (∀ db', reportMatch db b none = some db' →
        hadByeOf db' b = some true) := by
  obtain ⟨byePairings, groups1, groups2, res, hbye, hev, hpl, hps⟩ :=
    swissPairings_ok_main hsum hok
  rcases hbye with ⟨_, hbs⟩ | ⟨heven, _, _⟩
  · obtain ⟨b, nm, hsel, hname, hbp, hg1⟩ := bye_step_ok hbs
    obtain ⟨⟨r, hr, hrid, hrb⟩, _⟩ := select_player_for_bye_spec hsel
    have hfind : db.players.find? (fun p => p.id == b) = some r := by
      rw [← hrid]
      exact find?_id_unique hids hr
    have hby : hadByeOf db b = some false := by
      unfold hadByeOf
      rw [hfind]
      simp [hrb]
    refine ⟨b, nm, res, groups2, hsel, hby, ?_, ?_, hpl, rfl, ?_⟩
    · rw [hps, hbp]
      rfl
    · rw [← hg1]
      exact hev
    · intro db' hrep
      unfold reportMatch at hrep
      rw [hfind] at hrep
      simp only [hrb, Bool.false_eq_true, if_false, Option.some.injEq] at hrep
      rw [← hrep]
      unfold hadByeOf
      simp only
      rw [find?_set_had_bye b db.players r hfind]
      rfl
  · omega

/-- Witness for the amended C6 at the concrete three-player state. -/
theorem c6_bye_assignment_amended_witness :
    ∃ b nm res groups2,
      select_player_for_bye
        ⟨[⟨1, "A", false⟩, ⟨2, "B", false⟩, ⟨3, "C", true⟩],
         [(1, some 2), (3, none)]⟩ = some b ∧
      hadByeOf
        ⟨[⟨1, "A", false⟩, ⟨2, "B", false⟩, ⟨3, "C", true⟩],
         [(1, some 2), (3, none)]⟩ b = some false ∧
      ([(⟨2, "B", 2, "Give a Bye"⟩ : Pairing), ⟨1, "A", 3, "C"⟩] =
        (⟨b, nm, b, "Give a Bye"⟩ : Pairing) :: res) ∧
      evenness_pass (remove_from_groups (winGroups
        ⟨[⟨1, "A", false⟩, ⟨2, "B", false⟩, ⟨3, "C", true⟩],
         [(1, some 2), (3, none)]⟩) b) = .ok groups2 ∧
      pairing_loop
        ⟨[⟨1, "A", false⟩, ⟨2, "B", false⟩, ⟨3, "C", true⟩],
         [(1, some 2), (3, none)]⟩ groups2 = .ok res ∧
      (swissPairingsRun
        ⟨[⟨1, "A", false⟩, ⟨2, "B", false⟩, ⟨3, "C", true⟩],
         [(1, some 2), (3, none)]⟩ []).2 =
        ⟨[⟨1, "A", false⟩, ⟨2, "B", false⟩, ⟨3, "C", true⟩],
         [(1, some 2), (3, none)]⟩ ∧
      (∀ db', reportMatch
        ⟨[⟨1, "A", false⟩, ⟨2, "B", false⟩, ⟨3, "C", true⟩],
         [(1, some 2), (3, none)]⟩ b none = some db' →
        hadByeOf db' b = some true) :=
  c6_bye_assignment_amended
    ⟨[⟨1, "A", false⟩, ⟨2, "B", false⟩, ⟨3, "C", true⟩],
     [(1, some 2), (3, none)]⟩ [] [⟨2, "B", 2, "Give a Bye"⟩, ⟨1, "A", 3, "C"⟩]
    (by decide) (by decide) (by decide) (by decide)

/-! ## Claim C4 -/

theorem move_item_to_list_at :
    ∀ (pre : List (List Nat)) (gi : List Nat) (x : Nat) (xs : List Nat)
      (post : List (List Nat)),
      move_item_to_list (pre ++ gi :: (x :: xs) :: post) pre.length =
        .ok (pre ++ (gi ++ [x]) :: (if xs = [] then post else xs :: post)) := by
  intro pre
  induction pre with
  | nil =>
    intro gi x xs post
    cases xs <;> simp [move_item_to_list]
  | cons g pres ih =>
    intro gi x xs post
    simp only [List.cons_append, List.length_cons, move_item_to_list]
    rw [ih gi x xs post]
    rfl

theorem move_item_to_list_at_empty :
    ∀ (pre : List (List Nat)) (gi : List Nat) (post : List (List Nat)),
      move_item_to_list (pre ++ gi :: ([] : List Nat) :: post) pre.length =
        .error .popEmpty := by
  intro pre
  induction pre with
  | nil => intro gi post; simp [move_item_to_list]
  | cons g pres ih =>
    intro gi post
    simp only [List.cons_append, List.length_cons, move_item_to_list]
    rw [ih gi post]
    rfl

/-- Counterexample for C4 as stated: on a concrete state, the resolver
reports that bucket 0 could not be resolved and `0 + 2` does not exceed the
number of buckets, yet the engine neither moves two ids from bucket 1 (which
is empty) and restarts, nor fails with the unresolvable-pairing message: it
crashes with an uncaught `IndexError` (`pop` from the empty bucket 1). -/
theorem c4_counterexample :
    generate_pairings
      ⟨[⟨1, "A", false⟩, ⟨2, "B", false⟩, ⟨3, "C", false⟩, ⟨4, "D", false⟩],
       [(1, some 2)]⟩ [[1, 2], [], [3, 4]] = .error (.groupFailed 0) ∧
    0 + 2 ≤ ([[1, 2], [], [3, 4]] : List (List Nat)).length ∧
    pairing_loop
      ⟨[⟨1, "A", false⟩, ⟨2, "B", false⟩, ⟨3, "C", false⟩, ⟨4, "D", false⟩],
       [(1, some 2)]⟩ [[1, 2], [], [3, 4]] = .error .indexError := by
  decide

/-- C4 as amended: when the resolver reports bucket `i` unresolved, the
engine fails with the unresolvable-pairing message if `i + 2` exceeds the
number of buckets; otherwise, when bucket `i+1` holds at least two ids, it
moves exactly the first two ids of bucket `i+1` to the end of bucket `i`
(deleting bucket `i+1` if that empties it) and restarts resolution from
bucket 0 over the full current bucket sequence, and when bucket `i+1` is
empty it instead crashes with an uncaught `IndexError` (the pop from the
empty bucket), as the counterexample exhibits. -/
theorem c4_repair_amended (db : DB) (i : Nat)
    (pre : List (List Nat)) (gi : List Nat) (x1 x2 : Nat) (rest : List Nat)
    (post : List (List Nat)) (hpre : pre.length = i) :
    (∀ groups : List (List Nat),
      generate_pairings db groups = .error (.groupFailed i) →
      i + 2 > groups.length →
      pairing_loop db groups = .error .unresolvablePairing) ∧
    (generate_pairings db (pre ++ gi :: (x1 :: x2 :: rest) :: post) =
        .error (.groupFailed i) →
      pairing_loop db (pre ++ gi :: (x1 :: x2 :: rest) :: post) =
        pairing_loop db (pre ++ (gi ++ [x1, x2]) ::
          (if rest = [] then post else rest :: post))) ∧
    (generate_pairings db (pre ++ gi :: ([] : List Nat) :: post) =
        .error (.groupFailed i) →
      pairing_loop db (pre ++ gi :: ([] : List Nat) :: post) =
        .error .indexError) := by
  refine ⟨?_, ?_, ?_⟩
  · intro groups hfail hlen
    rw [pairing_loop_unfold db groups, hfail]
    simp only [if_pos hlen]
  · intro hfail
    rw [pairing_loop_unfold db _, hfail]
    have hlen : ¬(i + 2 > (pre ++ gi :: (x1 :: x2 :: rest) :: post).length) := by
      simp only [List.length_append, List.length_cons]
      omega
    simp only [if_neg hlen]
    have h1 := move_item_to_list_at pre gi x1 (x2 :: rest) post
    rw [hpre] at h1
    rw [h1]
    simp only [List.cons_ne_nil, if_false]
    have h2 := move_item_to_list_at pre (gi ++ [x1]) x2 rest post
    rw [hpre] at h2
    rw [h2]
    simp only [List.append_assoc, List.cons_append, List.nil_append]
  · intro hfail
    rw [pairing_loop_unfold db _, hfail]
    have hlen : ¬(i + 2 > (pre ++ gi :: ([] : List Nat) :: post).length) := by
      simp only [List.length_append, List.length_cons]
      omega
    simp only [if_neg hlen]
    have h1 := move_item_to_list_at_empty pre gi post
    rw [hpre] at h1
    rw [h1]

/-- Witness for the amended C4 on concrete states: the unresolvable case, a
two-id move with bucket deletion and restart, and the empty-bucket crash. -/
theorem c4_repair_amended_witness :
    pairing_loop
      ⟨[⟨1, "A", false⟩, ⟨2, "B", false⟩, ⟨3, "C", false⟩, ⟨4, "D", false⟩],
       [(1, some 2), (1, some 3), (1, some 4), (2, some 3), (2, some 4),
        (3, some 4)]⟩ [[1, 2, 3, 4]] = .error .unresolvablePairing ∧
    pairing_loop
      ⟨[⟨1, "A", false⟩, ⟨2, "B", false⟩, ⟨3, "C", false⟩, ⟨4, "D", false⟩],
       [(1, some 2)]⟩ [[1, 2], [3, 4]] =
      pairing_loop
        ⟨[⟨1, "A", false⟩, ⟨2, "B", false⟩, ⟨3, "C", false⟩, ⟨4, "D", false⟩],
         [(1, some 2)]⟩ [[1, 2, 3, 4]] ∧
    pairing_loop
      ⟨[⟨1, "A", false⟩, ⟨2, "B", false⟩, ⟨3, "C", false⟩, ⟨4, "D", false⟩],
       [(1, some 2)]⟩ [[1, 2], [], [3, 4]] = .error .indexError := by
  refine ⟨?_, ?_, ?_⟩
  · exact (c4_repair_amended
      ⟨[⟨1, "A", false⟩, ⟨2, "B", false⟩, ⟨3, "C", false⟩, ⟨4, "D", false⟩],
       [(1, some 2), (1, some 3), (1, some 4), (2, some 3), (2, some 4),
        (3, some 4)]⟩ 0 [] [] 0 0 [] [] rfl).1
      [[1, 2, 3, 4]] (by decide) (by decide)
  · exact (c4_repair_amended
      ⟨[⟨1, "A", false⟩, ⟨2, "B", false⟩, ⟨3, "C", false⟩, ⟨4, "D", false⟩],
       [(1, some 2)]⟩ 0 [] [1, 2] 3 4 [] [] rfl).2.1 (by decide)
  · exact (c4_repair_amended
      ⟨[⟨1, "A", false⟩, ⟨2, "B", false⟩, ⟨3, "C", false⟩, ⟨4, "D", false⟩],
       [(1, some 2)]⟩ 0 [] [1, 2] 0 0 [] [[3, 4]] rfl).2.2 (by decide)

/-! ## Claim C8 -/

/-- C8 failing input: the evenness pass crashes with the stale-bound
`IndexError` instead of terminating with every bucket even.  On the win
groups `[[1], [2], [3, 4, 5, 6]]` the pass moves id 2 down (deleting its
emptied bucket), and the loop, still running to the originally computed
bound 3, indexes past the end of the shrunk list.  The full engine exhibits
the crash on an ordinary complete-round six-player state (three rounds
played, win profile 0,1,2,2,2,2). -/
theorem c8_evenness_stale_bound_crash :
    evenness_pass [[1], [2], [3, 4, 5, 6]] = .error .staleIndex ∧
    swissPairings
      ⟨[⟨1, "P1", false⟩, ⟨2, "P2", false⟩, ⟨3, "P3", false⟩, ⟨4, "P4", false⟩,
        ⟨5, "P5", false⟩, ⟨6, "P6", false⟩],
       [(4, some 1), (5, some 1), (6, some 1), (2, some 4), (5, some 2),
        (6, some 2), (3, some 5), (3, some 6), (4, some 3)]⟩ [] =
      .error .indexError := by
  decide
